import Mathlib

/-!
Verification development for the dmfwizard electrode-board geometry core.

The Python source is shallowly embedded over the exact reals: numpy floating
point arithmetic is modelled by real arithmetic, numpy 2-vectors by `ℝ × ℝ`,
and the 3×3 homogeneous transform matrices by `Matrix (Fin 3) (Fin 3) ℝ`.
Python functions that mutate an object in place are modelled as functions
returning the updated value; functions that raise are modelled with `Except`
or with an explicit error component.
-/

open scoped Classical

noncomputable section

/-- A 2D point or vector (a numpy array of shape `(2,)` in the source). -/
abbrev Pt : Type := ℝ × ℝ

/-- Componentwise subtraction of 2D vectors (numpy `p - q`). -/
def psub (p q : Pt) : Pt := (p.1 - q.1, p.2 - q.2)

/-- `np.cross(u, v)` for two shape-`(2,)` arrays: the scalar 2D cross product. -/
def cross2 (u v : Pt) : ℝ := u.1 * v.2 - u.2 * v.1

/-- `np.dot(u, v)` for two 2-vectors. -/
def dot2 (u v : Pt) : ℝ := u.1 * v.1 + u.2 * v.2

/-- `np.linalg.norm` of a 2-vector. -/
def norm2 (p : Pt) : ℝ := Real.sqrt (p.1 ^ 2 + p.2 ^ 2)

/-- `np.linalg.norm` of a 2×2 array `[[x0, y0], [x1, y1]]` (an edge given as its
pair of endpoints): numpy returns the Frobenius norm, i.e. the square root of
the sum of the squares of all four entries.  This is what
`crenellate_electrodes` (crenellation.py line 88) computes on `edge_a` and
`edge_b`, each of which is a list of two points. -/
def frobNorm (e : Pt × Pt) : ℝ :=
  Real.sqrt (e.1.1 ^ 2 + e.1.2 ^ 2 + e.2.1 ^ 2 + e.2.2 ^ 2)

/-- `np.isclose(a, b)` with the numpy default tolerances `rtol = 1e-5`,
`atol = 1e-8`: `|a - b| ≤ atol + rtol * |b|`. -/
def npIsClose (a b : ℝ) : Prop := |a - b| ≤ 1 / 10 ^ 8 + 1 / 10 ^ 5 * |b|

/-- `TOL = 1e-12` from `do_edges_overlap` (crenellation.py line 12). -/
def TOL : ℝ := 1 / 10 ^ 12

/-- The first cross product of `do_edges_overlap` (crenellation.py line 18):
`np.cross(line_b[0] - line_a[0], line_b[0] - line_a[1])`. -/
def xp0 (la lb : Pt × Pt) : ℝ := cross2 (psub lb.1 la.1) (psub lb.1 la.2)

/-- The second cross product of `do_edges_overlap` (crenellation.py line 19):
`np.cross(line_b[1] - line_a[0], line_b[1] - line_a[1])`. -/
def xp1 (la lb : Pt × Pt) : ℝ := cross2 (psub lb.2 la.1) (psub lb.2 la.2)

/-- The colinearity gate of `do_edges_overlap` (crenellation.py lines 18-21):
the function returns `False` unless both cross products are `np.isclose` to 0. -/
def colinearCheck (la lb : Pt × Pt) : Prop :=
  npIsClose (xp0 la lb) 0 ∧ npIsClose (xp1 la lb) 0

/-- `len_a = np.linalg.norm(line_a[1])` after translating by `-line_a[0]`
(crenellation.py lines 24-26). -/
def lenA (la : Pt × Pt) : ℝ := norm2 (psub la.2 la.1)

/-- `u = line_a[1] / np.linalg.norm(line_a[1])` (crenellation.py line 27). -/
def unitA (la : Pt × Pt) : Pt :=
  ((la.2.1 - la.1.1) / lenA la, (la.2.2 - la.1.2) / lenA la)

/-- `d0 = np.dot(line_b[0], u)` (crenellation.py line 29), with `line_b`
already translated by `-line_a[0]`. -/
def projD0 (la lb : Pt × Pt) : ℝ := dot2 (psub lb.1 la.1) (unitA la)

/-- `d1 = np.dot(line_b[1], u)` (crenellation.py line 30). -/
def projD1 (la lb : Pt × Pt) : ℝ := dot2 (psub lb.2 la.1) (unitA la)

/-- `inside(d)` from `do_edges_overlap` (crenellation.py lines 31-32). -/
def insideProj (la : Pt × Pt) (d : ℝ) : Prop := d ≥ -TOL ∧ d ≤ lenA la + TOL

/-- `do_edges_overlap(line_a, line_b)` (crenellation.py lines 6-37): true iff
the colinearity gate passes and the projections satisfy
`inside(d0) and inside(d1) or d0 <= 0 and d1 >= len_a or d0 >= len_a and d1 <= 0`. -/
def do_edges_overlap (la lb : Pt × Pt) : Prop :=
  colinearCheck la lb ∧
    ((insideProj la (projD0 la lb) ∧ insideProj la (projD1 la lb)) ∨
      (projD0 la lb ≤ 0 ∧ projD1 la lb ≥ lenA la) ∨
      (projD0 la lb ≥ lenA la ∧ projD1 la lb ≤ 0))

/-- One ancestor in a `GeometryContainer` parent chain: its `rotation` and
`origin` fields (types.py). -/
structure Frame where
  rotation : ℝ
  origin : Pt

/-- `make_transform_matrix(rotation, translation)` (types.py lines 8-15). -/
def make_transform_matrix (rotation : ℝ) (translation : Pt) : Matrix (Fin 3) (Fin 3) ℝ :=
  !![Real.cos rotation, -Real.sin rotation, translation.1;
     Real.sin rotation, Real.cos rotation, translation.2;
     0, 0, 1]

/-- An `Electrode` (types.py lines 76-177).  The Python object's parent chain
of `GeometryContainer`s is represented by the list of the ancestors' frames,
immediate parent first. -/
structure Electrode where
  points : List Pt
  origin : Pt
  rotation : ℝ
  parents : List Frame
  refdes : ℤ
  anchor_pad : Pt

/-- The composed transform of a parent chain (immediate parent first):
`GeometryContainer.transform_matrix` recursion `M = parent_M * M`
(types.py lines 58-68). -/
def ancestorMatrix : List Frame → Matrix (Fin 3) (Fin 3) ℝ
  | [] => 1
  | f :: rest => ancestorMatrix rest * make_transform_matrix f.rotation f.origin

/-- `GeometryContainer.transform_matrix` for an electrode (types.py lines 58-68). -/
def Electrode.transform_matrix (e : Electrode) : Matrix (Fin 3) (Fin 3) ℝ :=
  ancestorMatrix e.parents * make_transform_matrix e.rotation e.origin

/-- `np.dot(M, (x, y, 1.0))[0:2]`: apply a homogeneous 3×3 transform to a 2D
point (types.py line 117). -/
def mapPoint (M : Matrix (Fin 3) (Fin 3) ℝ) (p : Pt) : Pt :=
  (M.mulVec ![p.1, p.2, 1] 0, M.mulVec ![p.1, p.2, 1] 1)

/-- `Electrode.offset_point(n)` (types.py lines 113-117).  Out-of-range
indices (an `IndexError` in Python) are totalized with a default. -/
def Electrode.offset_point (e : Electrode) (n : ℕ) : Pt :=
  mapPoint e.transform_matrix (e.points.getD n (0, 0))

/-- `Electrode.num_edges()` (types.py lines 103-106). -/
def Electrode.num_edges (e : Electrode) : ℕ := e.points.length

/-- `Electrode.offset_edge(n)` (types.py lines 127-135): the nth edge in board
coordinates, wrapping the last edge back to vertex 0.  The `n ≥ len` error
branch is not modelled; all uses have `n < len`. -/
def Electrode.offset_edge (e : Electrode) (n : ℕ) : Pt × Pt :=
  if n = e.points.length - 1 then (e.offset_point n, e.offset_point 0)
  else (e.offset_point n, e.offset_point (n + 1))

/-- `np.linalg.norm(p - q)`: the Euclidean distance of two points, as used by
the duplicate-pruning test of `Electrode.insert_points` (types.py lines 159, 165). -/
def distPt (p q : Pt) : ℝ := norm2 (psub p q)

/-- The Python index `index - 1` into `self.points` (types.py line 159):
for `index = 0` Python's negative indexing reads the last vertex. -/
def previdx (len index : ℕ) : ℕ := if index = 0 then len - 1 else index - 1

/-- `nextidx` (types.py lines 161-164): the insertion slot, wrapping to 0 when
inserting at the end of the vertex list. -/
def nextidx (len index : ℕ) : ℕ := if index = len then 0 else index

/-- The first-point pruning test of `Electrode.insert_points` (types.py line 159):
the first new point is within distance `0.001` of the vertex preceding the
insertion slot. -/
def closeFirst (e : Electrode) (index : ℕ) (pts : List Pt) : Prop :=
  distPt (e.points.getD (previdx e.points.length index) (0, 0)) (pts.headD (0, 0)) < 1 / 10 ^ 3

/-- The last-point pruning test of `Electrode.insert_points` (types.py line 165):
the last new point is within distance `0.001` of the vertex at `nextidx`. -/
def closeLast (e : Electrode) (index : ℕ) (pts : List Pt) : Prop :=
  distPt (e.points.getD (nextidx e.points.length index) (0, 0)) (pts.getLastD (0, 0)) < 1 / 10 ^ 3

/-- `Electrode.insert_points(index, points, prune_duplicates)` (types.py
lines 147-167).  The Python slice assignment
`self.points[index:index] = points[start:end]` with `start ∈ {0, 1}` and
`end ∈ {None, -1}` is modelled by `(pts.take stop).drop start`. -/
def Electrode.insert_points (e : Electrode) (index : ℕ) (pts : List Pt)
    (prune_duplicates : Bool) : Electrode :=
  { e with points :=
      e.points.take index ++
        ((pts.take (if prune_duplicates ∧ closeLast e index pts then pts.length - 1 else pts.length)).drop
          (if prune_duplicates ∧ closeFirst e index pts then 1 else 0)) ++
        e.points.drop index }

/-- `Electrode.insert_offset_points(index, points, prune_duplicates)`
(types.py lines 169-177): inverse-transform the points to local coordinates
(`np.linalg.inv(self.transform_matrix())`), then insert. -/
def Electrode.insert_offset_points (e : Electrode) (index : ℕ) (pts : List Pt)
    (prune_duplicates : Bool) : Electrode :=
  e.insert_points index (pts.map (mapPoint e.transform_matrix⁻¹)) prune_duplicates

/-- The list of edge index pairs scanned by `find_overlapping_edges`
(crenellation.py line 47): `itertools.product(range(na), range(nb))`,
first component outer, in ascending order. -/
def edgePairs (na nb : ℕ) : List (ℕ × ℕ) :=
  (List.range na).flatMap fun i : ℕ => (List.range nb).map fun j : ℕ => (i, j)

/-- `find_overlapping_edges(a, b)` (crenellation.py lines 39-51): the first
edge index pair whose board-coordinate edges overlap, if any. -/
def find_overlapping_edges (a b : Electrode) : Option (ℕ × ℕ) :=
  (edgePairs a.num_edges b.num_edges).find? fun ij =>
    decide (do_edges_overlap (a.offset_edge ij.1) (b.offset_edge ij.2))

/-- `are_edges_flipped(a, b)` (crenellation.py lines 53-56). -/
def are_edges_flipped (a b : Pt × Pt) : Prop :=
  dot2 (psub a.2 a.1) (psub b.2 b.1) < 0

/-- `alternating(n)` from `create_crenellated_edge` (crenellation.py
lines 131-138): `[1, -1, 1, -1, ...]` of length `n`. -/
def alternating (n : ℕ) : List ℝ :=
  (List.range n).map fun i : ℕ => if i % 2 = 0 then 1 else -1

/-- `np.arctan2(y, x)`, modelled by its standard quadrant-wise definition. -/
def arctan2 (y x : ℝ) : ℝ :=
  if 0 < x then Real.arctan (y / x)
  else if x < 0 then
    (if 0 ≤ y then Real.arctan (y / x) + Real.pi else Real.arctan (y / x) - Real.pi)
  else if 0 < y then Real.pi / 2
  else if y < 0 then -(Real.pi / 2)
  else 0

/-- Application of the rotation matrix
`R = [[cos a, -sin a], [sin a, cos a]]` followed by the translation `+= start`
(crenellation.py lines 148-153). -/
def rotTrans (ang : ℝ) (t p : Pt) : Pt :=
  (Real.cos ang * p.1 - Real.sin ang * p.2 + t.1,
   Real.sin ang * p.1 + Real.cos ang * p.2 + t.2)

/-- The local x-coordinates of the finger pattern (crenellation.py
lines 141-144): `[margin] + [margin + fw/2 + fw*i for i in range(n)] + [len - margin]`. -/
def fingerXpts (line_length finger_width margin : ℝ) (num_digits : ℕ) : List ℝ :=
  [margin] ++
    ((List.range num_digits).map fun i : ℕ => margin + finger_width / 2 + finger_width * (i : ℝ)) ++
    [line_length - margin]

/-- The local y-coordinates of the finger pattern (crenellation.py line 145):
`([0] + alternating(n) + [0]) * finger_height`. -/
def fingerYpts (finger_height : ℝ) (num_digits : ℕ) : List ℝ :=
  (([0] ++ alternating num_digits ++ [0]).map fun y => y * finger_height)

/-- `create_crenellated_edge(start, end, num_digits, theta, margin)`
(crenellation.py lines 109-154).  `num_digits` is modelled as a natural
number; the function performs no parameter validation. -/
def create_crenellated_edge (pstart pend : Pt) (num_digits : ℕ) (theta margin : ℝ) : List Pt :=
  (List.zipWith (fun x y => ((x : ℝ), (y : ℝ)))
      (fingerXpts (norm2 (psub pstart pend))
        ((norm2 (psub pstart pend) - margin * 2) / num_digits) margin num_digits)
      (fingerYpts ((norm2 (psub pstart pend) - margin * 2) / num_digits / Real.tan (theta / 2) / 2)
        num_digits)).map
    (rotTrans (arctan2 (pend.2 - pstart.2) (pend.1 - pstart.1)) pstart)

/-- The two error conditions of `crenellate_electrodes` (both `ValueError` in
Python; the spec names them `InvalidParameter` and `NoSharedEdge`). -/
inductive CrenError where
  | invalidParameter : CrenError
  | noSharedEdge : CrenError
deriving DecidableEq

/-- `crenellate_electrodes(a, b, num_digits, theta, margin, edge_a_idx,
edge_b_idx)` (crenellation.py lines 58-107).  The in-place mutation of the two
electrodes is modelled by returning the updated pair. -/
def crenellate_electrodes (a b : Electrode) (num_digits : ℕ) (theta margin : ℝ)
    (edge_a_idx edge_b_idx : ℤ) : Except CrenError (Electrode × Electrode) :=
  if (edge_a_idx = -1 ∨ edge_b_idx = -1) ∧ edge_b_idx ≠ edge_a_idx then
    .error .invalidParameter
  else
    match (if edge_a_idx = -1 then find_overlapping_edges a b
           else some (edge_a_idx.toNat, edge_b_idx.toNat)) with
    | none => .error .noSharedEdge
    | some (ia, ib) =>
      let edge_a := a.offset_edge ia
      let edge_b := b.offset_edge ib
      let short_edge := if frobNorm edge_a < frobNorm edge_b then edge_a else edge_b
      let new_points :=
        [short_edge.1] ++
          create_crenellated_edge short_edge.1 short_edge.2 num_digits theta margin ++
          [short_edge.2]
      .ok
        (a.insert_offset_points (ia + 1)
          (if are_edges_flipped edge_a short_edge then new_points.reverse else new_points) true,
         b.insert_offset_points (ib + 1)
          (if are_edges_flipped edge_b short_edge then new_points.reverse else new_points) true)

/-- `new_grid_square(size)` (construct.py lines 11-12). -/
def new_grid_square (size : ℝ) : List Pt := [(0, 0), (0, size), (size, size), (size, 0)]

/-- The `Constructor` session state (construct.py lines 70-92). -/
structure Constructor where
  next_refdes : ℤ
  next_periph_id : ℤ

/-- A `Grid` (types.py lines 251-277): allocation size (width, height),
pitch, and a `(column,row) → Electrode` mapping.  The Python dict with unique
keys in insertion order is modelled by an association list. -/
structure CGrid where
  origin : Pt
  size : ℤ × ℤ
  pitch : ℝ
  electrodes : List ((ℤ × ℤ) × Electrode)

/-- `pos in grid.electrodes` / `grid.electrodes[pos]` lookup. -/
def CGrid.lookupPos (g : CGrid) (pos : ℤ × ℤ) : Option Electrode :=
  g.electrodes.lookup pos

/-- `Constructor.fill(grid, pos)` (construct.py lines 108-119): no-op if the
position is already filled, otherwise create a fresh unit-square electrode
there (allocating a refdes via `get_refdes`, construct.py lines 80-87).
No bounds check is performed. -/
def Constructor.fill (c : Constructor) (g : CGrid) (pos : ℤ × ℤ) : Constructor × CGrid :=
  if (g.lookupPos pos).isSome then (c, g)
  else
    ({ c with next_refdes := c.next_refdes + 1 },
     { g with electrodes := g.electrodes ++ [(pos,
        { points := new_grid_square g.pitch
          origin := ((pos.1 : ℝ) * g.pitch, (pos.2 : ℝ) * g.pitch)
          rotation := 0
          parents := [⟨0, g.origin⟩]
          refdes := c.next_refdes
          anchor_pad := (g.pitch / 2, g.pitch / 2) })] })

/-- The error raised by the bounds checks of `fill_rect`, `fill_vert` and
`fill_horiz` (a `ValueError` in Python; `GridBoundsExceeded` in the spec). -/
inductive GridError where
  | boundsExceeded : GridError
deriving DecidableEq

/-- The bounds test `not (x < 0 or x >= grid.size[0] or y < 0 or y >= grid.size[1])`
(construct.py lines 132, 147, 162). -/
def CGrid.inBounds (g : CGrid) (pos : ℤ × ℤ) : Prop :=
  0 ≤ pos.1 ∧ pos.1 < g.size.1 ∧ 0 ≤ pos.2 ∧ pos.2 < g.size.2

/-- The shared loop body of `fill_rect` / `fill_vert` / `fill_horiz`: fill the
cells in order, checking each against the grid bounds first and stopping with
an error at the first out-of-bounds cell (cells filled before the error
persist, as the Python exception leaves earlier mutations in place). -/
def fillChecked (c : Constructor) (g : CGrid) :
    List (ℤ × ℤ) → Constructor × CGrid × Option GridError
  | [] => (c, g, none)
  | pos :: rest =>
    if g.inBounds pos then fillChecked (c.fill g pos).1 (c.fill g pos).2 rest
    else (c, g, some .boundsExceeded)

/-- The cell list of `fill_rect` (construct.py lines 129-131):
`itertools.product(range(pos[0], pos[0]+size[0]), range(pos[1], pos[1]+size[1]))`,
x outer, y inner. -/
def rectCells (pos size : ℤ × ℤ) : List (ℤ × ℤ) :=
  ((List.range size.1.toNat).map fun i : ℕ => pos.1 + (i : ℤ)).flatMap fun x =>
    ((List.range size.2.toNat).map fun j : ℕ => pos.2 + (j : ℤ)).map fun y => (x, y)

/-- `Constructor.fill_rect(grid, pos, size)` (construct.py lines 121-134). -/
def Constructor.fill_rect (c : Constructor) (g : CGrid) (pos size : ℤ × ℤ) :
    Constructor × CGrid × Option GridError :=
  fillChecked c g (rectCells pos size)

/-- The cell list of `fill_vert` (construct.py lines 143-145):
`range(0, distance, copysign(1, distance))` offsets applied to `start[1]`. -/
def vertCells (vstart : ℤ × ℤ) (distance : ℤ) : List (ℤ × ℤ) :=
  (List.range distance.natAbs).map fun k : ℕ =>
    (vstart.1, vstart.2 + (if 0 ≤ distance then (k : ℤ) else -(k : ℤ)))

/-- `Constructor.fill_vert(grid, start, distance)` (construct.py lines 136-149). -/
def Constructor.fill_vert (c : Constructor) (g : CGrid) (vstart : ℤ × ℤ) (distance : ℤ) :
    Constructor × CGrid × Option GridError :=
  fillChecked c g (vertCells vstart distance)

/-- The cell list of `fill_horiz` (construct.py lines 158-160). -/
def horizCells (hstart : ℤ × ℤ) (distance : ℤ) : List (ℤ × ℤ) :=
  (List.range distance.natAbs).map fun k : ℕ =>
    (hstart.1 + (if 0 ≤ distance then (k : ℤ) else -(k : ℤ)), hstart.2)

/-- `Constructor.fill_horiz(grid, start, distance)` (construct.py lines 151-164). -/
def Constructor.fill_horiz (c : Constructor) (g : CGrid) (hstart : ℤ × ℤ) (distance : ℤ) :
    Constructor × CGrid × Option GridError :=
  fillChecked c g (horizCells hstart distance)

/-- Python `str.isspace()`: nonempty and all whitespace. -/
def lineIsSpace (line : List Char) : Bool :=
  !line.isEmpty && line.all Char.isWhitespace

/-- The line filter of `fill_ascii` (construct.py lines 181-186).  The flag
`found_non_blank` is initialized to `False` and never set, so every
whitespace-only line is skipped, wherever it occurs. -/
def asciiLines (diagram : List (List Char)) : List (List Char) :=
  diagram.filter fun line => !lineIsSpace line

/-- The cells filled by `fill_ascii` (construct.py lines 187-190): for each
kept line (row) and each character that is neither `'_'` nor `' '`, the cell
`(column, row)`.  No bounds check is performed. -/
def asciiCells (diagram : List (List Char)) : List (ℤ × ℤ) :=
  (asciiLines diagram).enum.flatMap fun rl =>
    rl.2.enum.filterMap fun ic =>
      if ic.2 ≠ '_' ∧ ic.2 ≠ ' ' then some ((ic.1 : ℤ), (rl.1 : ℤ)) else none

/-- Unchecked sequential fill, as performed by `fill_ascii`. -/
def fillAll (c : Constructor) (g : CGrid) : List (ℤ × ℤ) → Constructor × CGrid
  | [] => (c, g)
  | pos :: rest => fillAll (c.fill g pos).1 (c.fill g pos).2 rest

/-- `Constructor.fill_ascii(grid, diagram)` (construct.py lines 166-190),
with the diagram given as its list of lines (`diagram.splitlines()`). -/
def Constructor.fill_ascii (c : Constructor) (g : CGrid) (diagram : List (List Char)) :
    Constructor × CGrid :=
  fillAll c g (asciiCells diagram)

/-- Modelled from the spec: the length of a segment as the Euclidean distance
from its start point to its end point — the selection criterion that claim C1
attributes to `crenellate_electrodes` ("whichever of the two candidate edges
has the shorter segment length"). -/
def segLength (e : Pt × Pt) : ℝ := norm2 (psub e.2 e.1)

/-- Modelled from the spec: every occupied grid key lies within
`[0, width) × [0, height)`. -/
def keysInBounds (g : CGrid) : Prop := ∀ pe ∈ g.electrodes, g.inBounds pe.1

/-- Modelled from the spec: a vertex ring has no two adjacent vertices
(including the closing edge) within the pruning tolerance `1e-3` of each
other. -/
def ringAdjacentFree (pts : List Pt) : Prop :=
  ∀ i < pts.length, ¬ distPt (pts.getD i (0, 0)) (pts.getD ((i + 1) % pts.length) (0, 0)) < 1 / 10 ^ 3

/-- Concrete electrode: a 10×10 square at the origin (identity transform). -/
def eA : Electrode := ⟨[(0, 0), (10, 0), (10, 10), (0, 10)], (0, 0), 0, [], -1, (0, 0)⟩

/-- Concrete electrode: a small 2×2 square abutting `eA` from below along the
segment from (7,0) to (9,0). -/
def eB : Electrode := ⟨[(7, 0), (9, 0), (9, -2), (7, -2)], (0, 0), 0, [], -1, (0, 0)⟩

/-- Concrete electrode: a unit square with its local origin at the board
origin. -/
def sqA : Electrode := ⟨[(0, 0), (0, 1), (1, 1), (1, 0)], (0, 0), 0, [], 1, (1/2, 1/2)⟩

/-- Concrete electrode: a unit square translated one unit down, so that it
abuts `sqA` along the segment from (0,0) to (1,0). -/
def sqB : Electrode := ⟨[(0, 0), (0, 1), (1, 1), (1, 0)], (0, -1), 0, [], 2, (1/2, 1/2)⟩

/-- Concrete electrode: a triangle near the origin. -/
def triA : Electrode := ⟨[(0, 0), (1, 0), (0, 1)], (0, 0), 0, [], -1, (0, 0)⟩

/-- Concrete electrode: a triangle far from `triA`, none of whose edges is
near-colinear with any edge of `triA`. -/
def triB : Electrode := ⟨[(10, 10), (11, 12), (9, 13)], (0, 0), 0, [], -1, (0, 0)⟩

/-- Concrete grid: 2×2 allocation, pitch 1, empty. -/
def gridC5 : CGrid := ⟨(0, 0), (2, 2), 1, []⟩

/-- A fresh `Constructor` (construct.py lines 76-78). -/
def ctor0 : Constructor := ⟨1, 1⟩

/-- Concrete electrode with a nontrivial rotation and a rotated, translated
parent frame. -/
def eRot : Electrode :=
  ⟨[(0, 0), (0, 2), (2, 2), (2, 0)], (3, 4), Real.pi / 3, [⟨Real.pi / 6, (1, 2)⟩], 7, (1, 1)⟩

/-- The i-th interior finger point produced by `create_crenellated_edge` on
the unit segment from (0,0) to (1,0) with `theta = π/2` and `margin = 1/10`:
finger width 4/(5n), finger height 2/(5n), alternating sign starting
positive. -/
def midPt (n : ℕ) (i : ℕ) : Pt :=
  (1/10 + 2/5/(n : ℝ) + 4/5/(n : ℝ) * i,
   if i % 2 = 0 then 2/5/(n : ℝ) else -(2/5/(n : ℝ)))

/-- Modelled from the spec: two vertices are "far" when they are not
duplicates within the pruning tolerance 1e-3. -/
def farPt (p q : Pt) : Prop := ¬ distPt p q < 1 / 10 ^ 3

end

/-! ## Helper lemmas -/

theorem sqrt_eval {a b : ℝ} (hb : 0 ≤ b) (h : b ^ 2 = a) : Real.sqrt a = b := by
  rw [← h, Real.sqrt_sq hb]

theorem fingerXpts_length (L fw m : ℝ) (n : ℕ) : (fingerXpts L fw m n).length = n + 2 := by
  unfold fingerXpts
  rw [List.length_append, List.length_append, List.length_map, List.length_range]
  simp
  omega

theorem fingerYpts_length (fh : ℝ) (n : ℕ) : (fingerYpts fh n).length = n + 2 := by
  unfold fingerYpts alternating
  rw [List.length_map, List.length_append, List.length_append, List.length_map, List.length_range]
  simp
  omega

theorem lookup_append_self {α : Type} (l : List ((ℤ × ℤ) × α)) (p : ℤ × ℤ) (e : α)
    (h : List.lookup p l = none) : List.lookup p (l ++ [(p, e)]) = some e := by
  induction l with
  | nil => simp [List.lookup]
  | cons hd tl ih =>
    simp only [List.cons_append, List.lookup] at h ⊢
    rcases hp : (p == hd.1) with _ | _
    · simp only [hp] at h ⊢
      exact ih h
    · simp [hp] at h

theorem lookup_append_other {α : Type} (l : List ((ℤ × ℤ) × α)) (p k : ℤ × ℤ) (e : α)
    (hne : p ≠ k) : List.lookup p (l ++ [(k, e)]) = List.lookup p l := by
  induction l with
  | nil => simp [List.lookup, beq_eq_false_iff_ne.mpr hne]
  | cons hd tl ih =>
    simp only [List.cons_append, List.lookup]
    rcases hp : (p == hd.1) with _ | _
    · simp only [hp]
      exact ih
    · simp [hp]

/-! ## C10: `Constructor.fill` is idempotent -/

/-- C10: `Constructor.fill` is idempotent: at a position that is already
occupied it returns the grid and allocator unchanged, and hence calling it
twice at one position yields the same constructor and grid state as calling
it once. -/
theorem C10_fill_idempotent (c : Constructor) (g : CGrid) (pos : ℤ × ℤ) :
    ((g.lookupPos pos).isSome → c.fill g pos = (c, g)) ∧
      (c.fill g pos).1.fill (c.fill g pos).2 pos = c.fill g pos := by
  by_cases h : (g.lookupPos pos).isSome
  · have h1 : c.fill g pos = (c, g) := by rw [Constructor.fill, if_pos h]
    refine ⟨fun _ => h1, ?_⟩
    rw [h1]
    exact h1
  · have h0 : g.lookupPos pos = none := Option.not_isSome_iff_eq_none.mp h
    refine ⟨fun hs => absurd hs h, ?_⟩
    have hsome : (((c.fill g pos).2).lookupPos pos).isSome := by
      rw [Constructor.fill, if_neg h]
      simp only [CGrid.lookupPos]
      rw [lookup_append_self _ _ _ h0]
      rfl
    rw [Constructor.fill, if_pos hsome]

/-- C10 witness: on a concretely occupied grid, `fill` leaves everything
unchanged, and on a fresh grid filling twice equals filling once. -/
theorem C10_fill_idempotent_witness :
    ctor0.fill ⟨(0, 0), (2, 2), 1, [((0, 0), triA)]⟩ (0, 0) =
        (ctor0, ⟨(0, 0), (2, 2), 1, [((0, 0), triA)]⟩) ∧
      (ctor0.fill gridC5 (1, 1)).1.fill (ctor0.fill gridC5 (1, 1)).2 (1, 1) =
        ctor0.fill gridC5 (1, 1) :=
  ⟨(C10_fill_idempotent ctor0 ⟨(0, 0), (2, 2), 1, [((0, 0), triA)]⟩ (0, 0)).1 (by rfl),
   (C10_fill_idempotent ctor0 gridC5 (1, 1)).2⟩

/-! ## C5: grid bounds -/

theorem fill_size (c : Constructor) (g : CGrid) (pos : ℤ × ℤ) :
    ((c.fill g pos).2).size = g.size := by
  rw [Constructor.fill]
  split <;> rfl

theorem fill_inBounds_iff (c : Constructor) (g : CGrid) (pos q : ℤ × ℤ) :
    ((c.fill g pos).2).inBounds q ↔ g.inBounds q := by
  rw [Constructor.fill]
  split <;> exact Iff.rfl

theorem fill_keysInBounds (c : Constructor) (g : CGrid) (pos : ℤ × ℤ)
    (hg : keysInBounds g) (hpos : g.inBounds pos) : keysInBounds (c.fill g pos).2 := by
  rw [Constructor.fill]
  split
  · exact hg
  · intro pe hpe
    simp only [keysInBounds, List.mem_append, List.mem_singleton] at hpe
    rcases hpe with hmem | hmem
    · exact hg pe hmem
    · subst hmem
      exact hpos

theorem fill_lookup_other (c : Constructor) (g : CGrid) (pos p : ℤ × ℤ) (hne : p ≠ pos) :
    ((c.fill g pos).2).lookupPos p = g.lookupPos p := by
  rw [Constructor.fill]
  split
  · rfl
  · simp only [CGrid.lookupPos]
    exact lookup_append_other _ _ _ _ hne

theorem fill_occupies (c : Constructor) (g : CGrid) (pos : ℤ × ℤ) :
    (((c.fill g pos).2).lookupPos pos).isSome := by
  by_cases h : (g.lookupPos pos).isSome
  · rw [Constructor.fill, if_pos h]
    exact h
  · rw [Constructor.fill, if_neg h]
    simp only [CGrid.lookupPos]
    rw [lookup_append_self _ _ _ (Option.not_isSome_iff_eq_none.mp h)]
    rfl

theorem fillChecked_keysInBounds (cells : List (ℤ × ℤ)) :
    ∀ c g, keysInBounds g → keysInBounds (fillChecked c g cells).2.1 := by
  induction cells with
  | nil => exact fun c g h => h
  | cons pos rest ih =>
    intro c g h
    rw [fillChecked]
    split
    · exact ih _ _ (fill_keysInBounds c g pos h (by assumption))
    · exact h

theorem fillChecked_lookup_oob (cells : List (ℤ × ℤ)) :
    ∀ c g p, ¬ g.inBounds p → (fillChecked c g cells).2.1.lookupPos p = g.lookupPos p := by
  induction cells with
  | nil => exact fun c g p _ => rfl
  | cons pos rest ih =>
    intro c g p hp
    rw [fillChecked]
    split
    · have hin : g.inBounds pos := by assumption
      have hne : p ≠ pos := fun h => hp (h ▸ hin)
      rw [ih _ _ p (fun hc => hp ((fill_inBounds_iff c g pos p).mp hc))]
      exact fill_lookup_other c g pos p hne
    · rfl

/-- C5 counterexample: the claim says every fill addressing a cell outside
the declared allocation fails and does not occupy it; but `Constructor.fill`
performs no bounds check, so filling (5,5) on an empty 2×2 grid succeeds and
occupies the out-of-bounds cell. -/
theorem C5_bounds_cex :
    (((ctor0.fill gridC5 (5, 5)).2).lookupPos (5, 5)).isSome = true ∧
      ¬ gridC5.inBounds (5, 5) := by
  constructor
  · rfl
  · intro h
    rcases h with ⟨-, h2, -⟩
    norm_num [gridC5] at h2

/-- C5 amended: only `fill_rect`, `fill_vert` and `fill_horiz` validate
bounds; each of them preserves the in-bounds invariant on occupied keys and
never occupies an out-of-bounds cell (even when it fails part-way).
`Constructor.fill` itself (and hence `fill_ascii`, which delegates to it)
performs no bounds check: it always occupies the addressed cell, in or out
of bounds, without failing. -/
theorem C5_bounds_amended (c : Constructor) (g : CGrid) :
    (∀ pos size, keysInBounds g → keysInBounds (c.fill_rect g pos size).2.1) ∧
      (∀ vstart d, keysInBounds g → keysInBounds (c.fill_vert g vstart d).2.1) ∧
      (∀ hstart d, keysInBounds g → keysInBounds (c.fill_horiz g hstart d).2.1) ∧
      (∀ pos size p, ¬ g.inBounds p →
        (c.fill_rect g pos size).2.1.lookupPos p = g.lookupPos p) ∧
      (∀ vstart d p, ¬ g.inBounds p →
        (c.fill_vert g vstart d).2.1.lookupPos p = g.lookupPos p) ∧
      (∀ hstart d p, ¬ g.inBounds p →
        (c.fill_horiz g hstart d).2.1.lookupPos p = g.lookupPos p) ∧
      (∀ pos, (((c.fill g pos).2).lookupPos pos).isSome) := by
  refine ⟨fun pos size h => fillChecked_keysInBounds _ c g h,
    fun vstart d h => fillChecked_keysInBounds _ c g h,
    fun hstart d h => fillChecked_keysInBounds _ c g h,
    fun pos size p hp => fillChecked_lookup_oob _ c g p hp,
    fun vstart d p hp => fillChecked_lookup_oob _ c g p hp,
    fun hstart d p hp => fillChecked_lookup_oob _ c g p hp,
    fun pos => fill_occupies c g pos⟩

/-- C5 amended witness: the checked rectangle fill keeps the empty 2×2 grid's
keys in bounds, and a raw `fill` at the out-of-bounds cell (5,5) occupies it. -/
theorem C5_bounds_amended_witness :
    keysInBounds (ctor0.fill_rect gridC5 (0, 0) (2, 2)).2.1 ∧
      (((ctor0.fill gridC5 (5, 5)).2).lookupPos (5, 5)).isSome :=
  ⟨(C5_bounds_amended ctor0 gridC5).1 (0, 0) (2, 2) (fun pe hpe => by simp [gridC5] at hpe),
   (C5_bounds_amended ctor0 gridC5).2.2.2.2.2.2 (5, 5)⟩

/-! ## C4: the colinearity tolerance of `do_edges_overlap` -/

/-- C4 counterexample: two horizontal segments offset by 1e-10 have both
cross products equal to 1e-10, which exceeds the claimed absolute tolerance
1e-12 — yet the code classifies the pair as colinear (and indeed reports an
overlap), because the gate is `np.isclose(x, 0)`, whose absolute tolerance is
1e-8. -/
theorem C4_tolerance_cex :
    do_edges_overlap ((0, 0), (1, 0)) ((0, 1/10^10), (1, 1/10^10)) ∧
      ¬ (|xp0 ((0, 0), (1, 0)) ((0, 1/10^10), (1, 1/10^10))| ≤ TOL ∧
          |xp1 ((0, 0), (1, 0)) ((0, 1/10^10), (1, 1/10^10))| ≤ TOL) := by
  have hx0 : xp0 ((0, 0), (1, 0)) ((0, 1/10^10), (1, 1/10^10)) = 1/10^10 := by
    unfold xp0 cross2 psub
    norm_num
  have hx1 : xp1 ((0, 0), (1, 0)) ((0, 1/10^10), (1, 1/10^10)) = 1/10^10 := by
    unfold xp1 cross2 psub
    norm_num
  have hlen : lenA ((0, 0), (1, 0)) = 1 := by
    unfold lenA norm2 psub
    norm_num [Real.sqrt_eq_one]
  refine ⟨⟨⟨?_, ?_⟩, Or.inl ⟨?_, ?_⟩⟩, ?_⟩
  · rw [npIsClose, hx0]
    rw [abs_le]
    norm_num
  · rw [npIsClose, hx1]
    rw [abs_le]
    norm_num
  · unfold insideProj projD0 dot2 unitA psub
    rw [hlen]
    norm_num [TOL]
  · unfold insideProj projD1 dot2 unitA psub
    rw [hlen]
    norm_num [TOL]
  · rw [hx0, hx1]
    rw [TOL, not_and_or]
    left
    rw [not_le, lt_abs]
    left
    norm_num

/-- C4 amended: the colinearity gate of `do_edges_overlap` (a necessary
condition for any overlap result of true) holds exactly when both cross
products are zero within absolute tolerance 1e-8 — the `np.isclose` default
absolute tolerance, since the comparison reference is 0 — not 1e-12. -/
theorem C4_tolerance_amended (la lb : Pt × Pt) :
    (do_edges_overlap la lb → colinearCheck la lb) ∧
      (colinearCheck la lb ↔ |xp0 la lb| ≤ 1/10^8 ∧ |xp1 la lb| ≤ 1/10^8) := by
  refine ⟨fun h => h.1, ?_⟩
  unfold colinearCheck npIsClose
  norm_num

/-- C4 amended witness: exactly coincident segments overlap, hence pass the
colinearity gate, and their cross products vanish. -/
theorem C4_tolerance_amended_witness :
    colinearCheck ((0, 0), (0, 1)) ((0, 0), (0, 1)) ∧
      (|xp0 ((0, 0), (0, 1)) ((0, 0), (0, 1))| ≤ 1/10^8 ∧
        |xp1 ((0, 0), (0, 1)) ((0, 0), (0, 1))| ≤ 1/10^8) := by
  have hov : do_edges_overlap ((0, 0), (0, 1)) ((0, 0), (0, 1)) := by
    have hlen : lenA ((0, 0), (0, 1)) = 1 := by
      unfold lenA norm2 psub
      norm_num [Real.sqrt_eq_one]
    refine ⟨⟨?_, ?_⟩, Or.inl ⟨?_, ?_⟩⟩
    · unfold npIsClose xp0 cross2 psub
      norm_num
    · unfold npIsClose xp1 cross2 psub
      norm_num
    · unfold insideProj projD0 dot2 unitA psub
      rw [hlen]
      norm_num [TOL]
    · unfold insideProj projD1 dot2 unitA psub
      rw [hlen]
      norm_num [TOL]
  exact ⟨(C4_tolerance_amended _ _).1 hov,
    ((C4_tolerance_amended _ _).2).mp ((C4_tolerance_amended _ _).1 hov)⟩

/-! ## C3: `create_crenellated_edge` performs no validation -/

/-- C3 counterexample: with `num_digits = 1` and `margin = 10` on a
unit-length segment the derived finger width `(1 - 2*10)/1 = -19` is
negative, yet `create_crenellated_edge` raises no error and returns a
3-point sequence. -/
theorem C3_no_validation_cex :
    (norm2 (psub ((0 : ℝ), (0 : ℝ)) (1, 0)) - 10 * 2) / ((1 : ℕ) : ℝ) < 0 ∧
      create_crenellated_edge (0, 0) (1, 0) 1 (Real.pi / 2) 10 =
        [(10, 0), (1/2, -19/2), (-9, 0)] := by
  have h1 : norm2 (psub ((0 : ℝ), (0 : ℝ)) (1, 0)) = 1 := by
    unfold norm2 psub
    norm_num [Real.sqrt_eq_one]
  have h2 : arctan2 ((0 : ℝ) - 0) ((1 : ℝ) - 0) = 0 := by
    unfold arctan2
    rw [if_pos (by norm_num : (0 : ℝ) < 1 - 0)]
    norm_num [Real.arctan_zero]
  have h3 : ∀ p : Pt, rotTrans 0 ((0 : ℝ), (0 : ℝ)) p = p := by
    intro p
    unfold rotTrans
    simp [Real.cos_zero, Real.sin_zero]
  constructor
  · rw [h1]
    norm_num
  · have htan : Real.tan (Real.pi / 2 / 2) = 1 := by
      rw [show Real.pi / 2 / 2 = Real.pi / 4 by ring, Real.tan_pi_div_four]
    unfold create_crenellated_edge fingerXpts fingerYpts alternating
    rw [h1, h2]
    rw [show rotTrans 0 ((0 : ℝ), (0 : ℝ)) = id from funext h3, List.map_id]
    simp [List.range_succ, htan]
    norm_num

/-- C3 amended: `create_crenellated_edge` performs no parameter validation
whatsoever: for every digit count (including 0, the model of `num_digits < 1`)
and every margin (including margins so large that the derived finger width is
negative) it returns a point sequence of `num_digits + 2` points rather than
failing. -/
theorem C3_no_validation_amended (pstart pend : Pt) (n : ℕ) (theta margin : ℝ) :
    (create_crenellated_edge pstart pend n theta margin).length = n + 2 := by
  unfold create_crenellated_edge
  rw [List.length_map, List.length_zipWith, fingerXpts_length, fingerYpts_length, min_self]

/-! ## C7: duplicate pruning in `insert_points` -/

/-- C7: `insert_points` with pruning drops the first new point exactly when it
is within distance 1e-3 of the vertex immediately preceding the insertion
slot (`previdx`, wrapping to the last vertex for index 0), drops the last new
point exactly when it is within 1e-3 of the vertex currently at the insertion
slot (`nextidx`, wrapping to index 0 when inserting at the end), and splices
all remaining points in at the index in order. -/
theorem C7_insert_prune (e : Electrode) (idx : ℕ) (pts : List Pt)
    (h3 : 3 ≤ e.points.length) (hidx : idx ≤ e.points.length) (hne : pts ≠ []) :
    (e.insert_points idx pts true).points =
      e.points.take idx ++
        (if closeLast e idx pts then
            (if closeFirst e idx pts then pts.drop 1 else pts).dropLast
          else (if closeFirst e idx pts then pts.drop 1 else pts)) ++
        e.points.drop idx := by
  simp only [Electrode.insert_points, eq_self_iff_true, true_and]
  by_cases cf : closeFirst e idx pts <;> by_cases cl : closeLast e idx pts
  · simp only [if_pos cf, if_pos cl]
    rw [List.drop_take, List.dropLast_eq_take, List.length_drop]
  · simp only [if_pos cf, if_neg cl]
    rw [List.take_length]
  · simp only [if_neg cf, if_pos cl]
    rw [List.drop_zero, List.dropLast_eq_take]
  · simp only [if_neg cf, if_neg cl]
    rw [List.take_length, List.drop_zero]

/-- C7 witness: inserting one far-away point into the unit square at slot 2
(between vertices (0,1) and (1,1)). -/
theorem C7_insert_prune_witness :
    (sqA.insert_points 2 [(5, 5)] true).points =
      sqA.points.take 2 ++
        (if closeLast sqA 2 [(5, 5)] then
            (if closeFirst sqA 2 [(5, 5)] then ([((5 : ℝ), (5 : ℝ))] : List Pt).drop 1
              else [(5, 5)]).dropLast
          else (if closeFirst sqA 2 [(5, 5)] then ([((5 : ℝ), (5 : ℝ))] : List Pt).drop 1
            else [(5, 5)])) ++
        sqA.points.drop 2 :=
  C7_insert_prune sqA 2 [(5, 5)] (by norm_num [sqA]) (by norm_num [sqA]) (by simp)

/-! ## Transform evaluation helpers -/

theorem mapPoint_affine (a b c d e f : ℝ) (p : Pt) :
    mapPoint !![a, b, c; d, e, f; 0, 0, 1] p =
      (a * p.1 + b * p.2 + c, d * p.1 + e * p.2 + f) := by
  unfold mapPoint
  have h0 : (!![a, b, c; d, e, f; 0, 0, 1]).mulVec ![p.1, p.2, 1] 0 =
      a * p.1 + b * p.2 + c := by
    simp [Matrix.mulVec, Matrix.dotProduct, Fin.sum_univ_three, Matrix.vecHead, Matrix.vecTail]
  have h1 : (!![a, b, c; d, e, f; 0, 0, 1]).mulVec ![p.1, p.2, 1] 1 =
      d * p.1 + e * p.2 + f := by
    simp [Matrix.mulVec, Matrix.dotProduct, Fin.sum_univ_three, Matrix.vecHead, Matrix.vecTail]
  rw [h0, h1]

theorem transform_matrix_plain (e : Electrode) (hp : e.parents = []) (hr : e.rotation = 0) :
    e.transform_matrix = !![1, 0, e.origin.1; 0, 1, e.origin.2; 0, 0, 1] := by
  rw [Electrode.transform_matrix, hp, hr]
  rw [show ancestorMatrix [] = 1 from rfl, one_mul, make_transform_matrix]
  ext i j
  fin_cases i <;> fin_cases j <;>
    simp [Real.cos_zero, Real.sin_zero]

theorem offset_point_plain (e : Electrode) (hp : e.parents = []) (hr : e.rotation = 0) (n : ℕ) :
    e.offset_point n =
      ((e.points.getD n (0, 0)).1 + e.origin.1, (e.points.getD n (0, 0)).2 + e.origin.2) := by
  rw [Electrode.offset_point, transform_matrix_plain e hp hr, mapPoint_affine]
  norm_num

/-! ## C1: the shorter-edge selection criterion -/

/-- C1: at the failing input, the code's selection expression
`np.linalg.norm(edge_a) < np.linalg.norm(edge_b)` (the Frobenius norm of the
2×2 endpoint arrays) holds, so `crenellate_electrodes` takes electrode A's
edge from (0,0) to (10,0) as the "shorter" reference edge — although B's edge
from (7,0) to (9,0) has the (much) shorter segment length claimed as the
selection criterion, and the two edges form a genuinely overlapping resolved
edge pair. -/
theorem C1_frobenius_not_segment_length :
    frobNorm (eA.offset_edge 0) < frobNorm (eB.offset_edge 0) ∧
      segLength (eB.offset_edge 0) < segLength (eA.offset_edge 0) ∧
      do_edges_overlap (eA.offset_edge 0) (eB.offset_edge 0) := by
  have hEA : eA.offset_edge 0 = ((0, 0), (10, 0)) := by
    rw [Electrode.offset_edge, if_neg (by norm_num [eA]),
      offset_point_plain eA rfl rfl 0, offset_point_plain eA rfl rfl 1]
    norm_num [eA]
  have hEB : eB.offset_edge 0 = ((7, 0), (9, 0)) := by
    rw [Electrode.offset_edge, if_neg (by norm_num [eB]),
      offset_point_plain eB rfl rfl 0, offset_point_plain eB rfl rfl 1]
    norm_num [eB]
  rw [hEA, hEB]
  have hlen : lenA ((0, 0), (10, 0)) = 10 := by
    unfold lenA norm2 psub
    exact sqrt_eval (by norm_num) (by norm_num)
  refine ⟨?_, ?_, ⟨?_, ?_⟩, Or.inl ⟨?_, ?_⟩⟩
  · unfold frobNorm
    rw [Real.sqrt_lt_sqrt_iff (by norm_num)]
    norm_num
  · unfold segLength norm2 psub
    rw [Real.sqrt_lt_sqrt_iff (by norm_num)]
    norm_num
  · unfold npIsClose xp0 cross2 psub
    norm_num
  · unfold npIsClose xp1 cross2 psub
    norm_num
  · unfold insideProj projD0 dot2 unitA psub
    rw [hlen]
    norm_num [TOL]
  · unfold insideProj projD1 dot2 unitA psub
    rw [hlen]
    norm_num [TOL]

/-! ## C6: overlap means colinear containment -/

/-- C6: for segments parameterized along a nondegenerate segment A (so that B
is exactly colinear with A, with endpoints at parameters t0 and t1),
`do_edges_overlap` returns true when one segment is fully contained in the
other (boundary coincidence allowed), and false when B merely partially
overlaps A or touches it only at an endpoint — i.e. whenever one B-endpoint
projects outside A beyond the tolerance window while B does not span A. -/
theorem C6_overlap_containment (a0 a1 b0 b1 : Pt) (t0 t1 : ℝ)
    (hA : a0 ≠ a1)
    (hb0 : b0 = (a0.1 + t0 * (a1.1 - a0.1), a0.2 + t0 * (a1.2 - a0.2)))
    (hb1 : b1 = (a0.1 + t1 * (a1.1 - a0.1), a0.2 + t1 * (a1.2 - a0.2))) :
    (((0 ≤ t0 ∧ t0 ≤ 1 ∧ 0 ≤ t1 ∧ t1 ≤ 1) ∨ (t0 ≤ 0 ∧ 1 ≤ t1) ∨ (t1 ≤ 0 ∧ 1 ≤ t0)) →
        do_edges_overlap (a0, a1) (b0, b1)) ∧
      ((t0 * lenA (a0, a1) < -TOL ∧ t1 * lenA (a0, a1) < lenA (a0, a1)) →
          ¬ do_edges_overlap (a0, a1) (b0, b1)) ∧
      ((t1 * lenA (a0, a1) < -TOL ∧ t0 * lenA (a0, a1) < lenA (a0, a1)) →
          ¬ do_edges_overlap (a0, a1) (b0, b1)) ∧
      ((lenA (a0, a1) + TOL < t0 * lenA (a0, a1) ∧ 0 < t1 * lenA (a0, a1)) →
          ¬ do_edges_overlap (a0, a1) (b0, b1)) ∧
      ((lenA (a0, a1) + TOL < t1 * lenA (a0, a1) ∧ 0 < t0 * lenA (a0, a1)) →
          ¬ do_edges_overlap (a0, a1) (b0, b1)) := by
  subst hb0 hb1
  have hTOL : (0 : ℝ) < TOL := by norm_num [TOL]
  have h' : a0.1 ≠ a1.1 ∨ a0.2 ≠ a1.2 := by
    by_contra hc
    push_neg at hc
    exact hA (Prod.ext_iff.mpr ⟨hc.1, hc.2⟩)
  have hvv : 0 < (a1.1 - a0.1) ^ 2 + (a1.2 - a0.2) ^ 2 := by
    rcases h' with h1 | h1
    · have := pow_two_pos_of_ne_zero (sub_ne_zero.mpr (Ne.symm h1))
      nlinarith [sq_nonneg (a1.2 - a0.2)]
    · have := pow_two_pos_of_ne_zero (sub_ne_zero.mpr (Ne.symm h1))
      nlinarith [sq_nonneg (a1.1 - a0.1)]
  have hL : 0 < lenA (a0, a1) := by
    unfold lenA norm2 psub
    exact Real.sqrt_pos.mpr hvv
  have hL2 : lenA (a0, a1) ^ 2 = (a1.1 - a0.1) ^ 2 + (a1.2 - a0.2) ^ 2 := by
    unfold lenA norm2 psub
    exact Real.sq_sqrt (le_of_lt hvv)
  have hLne : lenA (a0, a1) ≠ 0 := ne_of_gt hL
  have hproj : ∀ t : ℝ,
      (a0.1 + t * (a1.1 - a0.1) - a0.1) * ((a1.1 - a0.1) / lenA (a0, a1)) +
        (a0.2 + t * (a1.2 - a0.2) - a0.2) * ((a1.2 - a0.2) / lenA (a0, a1)) =
        t * lenA (a0, a1) := by
    intro t
    have hsplit : (a0.1 + t * (a1.1 - a0.1) - a0.1) * ((a1.1 - a0.1) / lenA (a0, a1)) +
        (a0.2 + t * (a1.2 - a0.2) - a0.2) * ((a1.2 - a0.2) / lenA (a0, a1)) =
        t * (((a1.1 - a0.1) ^ 2 + (a1.2 - a0.2) ^ 2) / lenA (a0, a1)) := by
      ring
    rw [hsplit, ← hL2, pow_two, mul_div_assoc, div_self hLne, mul_one]
  have hd0 : projD0 (a0, a1)
      ((a0.1 + t0 * (a1.1 - a0.1), a0.2 + t0 * (a1.2 - a0.2)),
       (a0.1 + t1 * (a1.1 - a0.1), a0.2 + t1 * (a1.2 - a0.2))) = t0 * lenA (a0, a1) := by
    unfold projD0 dot2 unitA psub
    exact hproj t0
  have hd1 : projD1 (a0, a1)
      ((a0.1 + t0 * (a1.1 - a0.1), a0.2 + t0 * (a1.2 - a0.2)),
       (a0.1 + t1 * (a1.1 - a0.1), a0.2 + t1 * (a1.2 - a0.2))) = t1 * lenA (a0, a1) := by
    unfold projD1 dot2 unitA psub
    exact hproj t1
  have hcol : colinearCheck (a0, a1)
      ((a0.1 + t0 * (a1.1 - a0.1), a0.2 + t0 * (a1.2 - a0.2)),
       (a0.1 + t1 * (a1.1 - a0.1), a0.2 + t1 * (a1.2 - a0.2))) := by
    constructor
    · have hz : xp0 (a0, a1)
          ((a0.1 + t0 * (a1.1 - a0.1), a0.2 + t0 * (a1.2 - a0.2)),
           (a0.1 + t1 * (a1.1 - a0.1), a0.2 + t1 * (a1.2 - a0.2))) = 0 := by
        unfold xp0 cross2 psub
        ring
      rw [hz]
      unfold npIsClose
      norm_num
    · have hz : xp1 (a0, a1)
          ((a0.1 + t0 * (a1.1 - a0.1), a0.2 + t0 * (a1.2 - a0.2)),
           (a0.1 + t1 * (a1.1 - a0.1), a0.2 + t1 * (a1.2 - a0.2))) = 0 := by
        unfold xp1 cross2 psub
        ring
      rw [hz]
      unfold npIsClose
      norm_num
  refine ⟨?_, ?_, ?_, ?_, ?_⟩
  · rintro (⟨h00, h01, h10, h11⟩ | ⟨h0, h1⟩ | ⟨h0, h1⟩)
    · refine ⟨hcol, Or.inl ⟨⟨?_, ?_⟩, ⟨?_, ?_⟩⟩⟩
      · rw [hd0]; nlinarith
      · rw [hd0]; nlinarith
      · rw [hd1]; nlinarith
      · rw [hd1]; nlinarith
    · refine ⟨hcol, Or.inr (Or.inl ⟨?_, ?_⟩)⟩
      · rw [hd0]; nlinarith
      · rw [hd1]; nlinarith
    · refine ⟨hcol, Or.inr (Or.inr ⟨?_, ?_⟩)⟩
      · rw [hd0]; nlinarith
      · rw [hd1]; nlinarith
  · rintro ⟨hlt, hlt2⟩ ⟨-, hdisj⟩
    rcases hdisj with ⟨⟨hge, -⟩, -⟩ | ⟨-, hge⟩ | ⟨hge, -⟩
    · rw [hd0] at hge; linarith
    · rw [hd1] at hge; linarith
    · rw [hd0] at hge; linarith
  · rintro ⟨hlt, hlt2⟩ ⟨-, hdisj⟩
    rcases hdisj with ⟨-, ⟨hge, -⟩⟩ | ⟨-, hge⟩ | ⟨hge, -⟩
    · rw [hd1] at hge; linarith
    · rw [hd1] at hge; linarith
    · rw [hd0] at hge; linarith
  · rintro ⟨hgt, hgt2⟩ ⟨-, hdisj⟩
    rcases hdisj with ⟨⟨-, hle⟩, -⟩ | ⟨hle, -⟩ | ⟨-, hle⟩
    · rw [hd0] at hle; linarith
    · rw [hd0] at hle; linarith
    · rw [hd1] at hle; linarith
  · rintro ⟨hgt, hgt2⟩ ⟨-, hdisj⟩
    rcases hdisj with ⟨-, ⟨-, hle⟩⟩ | ⟨hle, -⟩ | ⟨-, hle⟩
    · rw [hd1] at hle; linarith
    · rw [hd0] at hle; linarith
    · rw [hd1] at hle; linarith

/-- C6 witness: containment of a colinear subsegment overlaps; the spec's own
partial-overlap example A=[(0,0),(1,1)], B=[(0.5,0.5),(2,2)] does not. -/
theorem C6_overlap_containment_witness :
    do_edges_overlap ((0, 0), (2, 0)) ((1/2, 0), (3/2, 0)) ∧
      ¬ do_edges_overlap ((0, 0), (1, 1)) ((1/2, 1/2), (2, 2)) := by
  constructor
  · exact (C6_overlap_containment (0, 0) (2, 0) (1/2, 0) (3/2, 0) (1/4) (3/4)
      (by norm_num [Prod.ext_iff]) (by norm_num [Prod.ext_iff]) (by norm_num [Prod.ext_iff])).1
      (Or.inl (by norm_num))
  · have hL : lenA ((0, 0), (1, 1)) = Real.sqrt 2 := by
      unfold lenA norm2 psub
      norm_num
    have h1 : (1 : ℝ) ≤ Real.sqrt 2 := by
      rw [show (1 : ℝ) = Real.sqrt 1 from Real.sqrt_one.symm]
      exact Real.sqrt_le_sqrt (by norm_num)
    have h2 : (0 : ℝ) < Real.sqrt 2 := Real.sqrt_pos.mpr (by norm_num)
    refine (C6_overlap_containment (0, 0) (1, 1) (1/2, 1/2) (2, 2) (1/2) 2
      (by norm_num [Prod.ext_iff]) (by norm_num [Prod.ext_iff])
      (by norm_num [Prod.ext_iff])).2.2.2.2 ⟨?_, ?_⟩
    · rw [hL]
      have hTOL : TOL < 1 := by norm_num [TOL]
      linarith
    · rw [hL]
      linarith

/-! ## C8: edge-index parameter errors and shared-edge discovery -/

theorem mem_edgePairs {na nb : ℕ} {ij : ℕ × ℕ} :
    ij ∈ edgePairs na nb ↔ ij.1 < na ∧ ij.2 < nb := by
  unfold edgePairs
  constructor
  · intro h
    rcases List.mem_flatMap.mp h with ⟨i, hi, hmem⟩
    rcases List.mem_map.mp hmem with ⟨j, hj, hmk⟩
    rw [← hmk]
    exact ⟨List.mem_range.mp hi, List.mem_range.mp hj⟩
  · intro ⟨h1, h2⟩
    exact List.mem_flatMap.mpr ⟨ij.1, List.mem_range.mpr h1,
      List.mem_map.mpr ⟨ij.2, List.mem_range.mpr h2, rfl⟩⟩

theorem find_overlapping_edges_eq_none_iff (a b : Electrode) :
    find_overlapping_edges a b = none ↔
      ∀ i < a.num_edges, ∀ j < b.num_edges,
        ¬ do_edges_overlap (a.offset_edge i) (b.offset_edge j) := by
  unfold find_overlapping_edges
  rw [List.find?_eq_none]
  constructor
  · intro h i hi j hj hov
    exact h (i, j) (mem_edgePairs.mpr ⟨hi, hj⟩) (decide_eq_true hov)
  · intro h ij hij hd
    exact h ij.1 (mem_edgePairs.mp hij).1 ij.2 (mem_edgePairs.mp hij).2 (of_decide_eq_true hd)

/-- C8: supplying exactly one of the two edge indices (the other left at the
default -1) makes `crenellate_electrodes` fail with the InvalidParameter
error; with neither supplied, shared-edge discovery runs and the call fails
with NoSharedEdge exactly when no edge pair of the two electrodes overlaps. -/
theorem C8_edge_index_errors (a b : Electrode) (n : ℕ) (theta margin : ℝ) (ia ib : ℤ) :
    (((ia = -1 ∨ ib = -1) ∧ ib ≠ ia) →
        crenellate_electrodes a b n theta margin ia ib = .error .invalidParameter) ∧
      (ia = -1 → ib = -1 → find_overlapping_edges a b = none →
        crenellate_electrodes a b n theta margin ia ib = .error .noSharedEdge) ∧
      (find_overlapping_edges a b = none ↔
        ∀ i < a.num_edges, ∀ j < b.num_edges,
          ¬ do_edges_overlap (a.offset_edge i) (b.offset_edge j)) := by
  refine ⟨?_, ?_, find_overlapping_edges_eq_none_iff a b⟩
  · intro h
    rw [crenellate_electrodes, if_pos h]
  · intro h1 h2 hf
    subst h1
    subst h2
    rw [crenellate_electrodes, if_neg (by simp), if_pos rfl, hf]

/-- C8 witness: on two far-apart triangles with no near-colinear edge pair,
supplying only one explicit edge index raises InvalidParameter, and supplying
neither raises NoSharedEdge. -/
theorem C8_edge_index_errors_witness :
    crenellate_electrodes triA triB 2 1 0 0 (-1) = .error .invalidParameter ∧
      crenellate_electrodes triA triB 2 1 0 (-1) (-1) = .error .noSharedEdge := by
  have e0 : triA.offset_edge 0 = ((0, 0), (1, 0)) := by
    rw [Electrode.offset_edge, if_neg (by norm_num [triA]),
      offset_point_plain triA rfl rfl, offset_point_plain triA rfl rfl]
    norm_num [triA]
  have e1 : triA.offset_edge 1 = ((1, 0), (0, 1)) := by
    rw [Electrode.offset_edge, if_neg (by norm_num [triA]),
      offset_point_plain triA rfl rfl, offset_point_plain triA rfl rfl]
    norm_num [triA]
  have e2 : triA.offset_edge 2 = ((0, 1), (0, 0)) := by
    rw [Electrode.offset_edge, if_pos (by norm_num [triA]),
      offset_point_plain triA rfl rfl, offset_point_plain triA rfl rfl]
    norm_num [triA]
  have f0 : triB.offset_edge 0 = ((10, 10), (11, 12)) := by
    rw [Electrode.offset_edge, if_neg (by norm_num [triB]),
      offset_point_plain triB rfl rfl, offset_point_plain triB rfl rfl]
    norm_num [triB]
  have f1 : triB.offset_edge 1 = ((11, 12), (9, 13)) := by
    rw [Electrode.offset_edge, if_neg (by norm_num [triB]),
      offset_point_plain triB rfl rfl, offset_point_plain triB rfl rfl]
    norm_num [triB]
  have f2 : triB.offset_edge 2 = ((9, 13), (10, 10)) := by
    rw [Electrode.offset_edge, if_pos (by norm_num [triB]),
      offset_point_plain triB rfl rfl, offset_point_plain triB rfl rfl]
    norm_num [triB]
  have hnone : find_overlapping_edges triA triB = none := by
    rw [find_overlapping_edges_eq_none_iff]
    intro i hi j hj hov
    have hi' : i < 3 := by simpa [Electrode.num_edges, triA] using hi
    have hj' : j < 3 := by simpa [Electrode.num_edges, triB] using hj
    interval_cases i <;> interval_cases j <;>
      simp only [e0, e1, e2, f0, f1, f2] at hov <;>
      (obtain ⟨⟨hc, -⟩, -⟩ := hov
       unfold npIsClose at hc
       simp only [sub_zero, abs_zero, mul_zero, add_zero] at hc
       rw [abs_le] at hc
       unfold xp0 cross2 psub at hc
       norm_num at hc)
  exact ⟨(C8_edge_index_errors triA triB 2 1 0 0 (-1)).1 (by norm_num),
    (C8_edge_index_errors triA triB 2 1 0 (-1) (-1)).2.1 rfl rfl hnone⟩

/-! ## C9: global insert / global read round trip -/

theorem det_make_transform_matrix (r : ℝ) (t : Pt) : (make_transform_matrix r t).det = 1 := by
  rw [make_transform_matrix, Matrix.det_fin_three]
  simp [Matrix.vecHead, Matrix.vecTail]
  nlinarith [Real.sin_sq_add_cos_sq r]

theorem det_ancestorMatrix (fs : List Frame) : (ancestorMatrix fs).det = 1 := by
  induction fs with
  | nil => simp [ancestorMatrix]
  | cons f rest ih =>
    rw [ancestorMatrix, Matrix.det_mul, ih, det_make_transform_matrix, one_mul]

theorem det_transform_matrix (e : Electrode) : e.transform_matrix.det = 1 := by
  rw [Electrode.transform_matrix, Matrix.det_mul, det_ancestorMatrix,
    det_make_transform_matrix, one_mul]

theorem lastRow_make (r : ℝ) (t : Pt) :
    ∀ j, make_transform_matrix r t 2 j = (1 : Matrix (Fin 3) (Fin 3) ℝ) 2 j := by
  intro j
  fin_cases j <;>
    simp [make_transform_matrix, Matrix.one_apply, Matrix.vecHead, Matrix.vecTail]

theorem lastRow_mul (A B : Matrix (Fin 3) (Fin 3) ℝ)
    (hA : ∀ j, A 2 j = (1 : Matrix (Fin 3) (Fin 3) ℝ) 2 j)
    (hB : ∀ j, B 2 j = (1 : Matrix (Fin 3) (Fin 3) ℝ) 2 j) :
    ∀ j, (A * B) 2 j = (1 : Matrix (Fin 3) (Fin 3) ℝ) 2 j := by
  intro j
  rw [Matrix.mul_apply, Fin.sum_univ_three, hA 0, hA 1, hA 2]
  simp [Matrix.one_apply]
  exact hB j

theorem lastRow_ancestor (fs : List Frame) :
    ∀ j, ancestorMatrix fs 2 j = (1 : Matrix (Fin 3) (Fin 3) ℝ) 2 j := by
  induction fs with
  | nil => intro j; rfl
  | cons f rest ih => exact lastRow_mul _ _ ih (lastRow_make f.rotation f.origin)

theorem lastRow_transform (e : Electrode) :
    ∀ j, e.transform_matrix 2 j = (1 : Matrix (Fin 3) (Fin 3) ℝ) 2 j :=
  lastRow_mul _ _ (lastRow_ancestor e.parents) (lastRow_make e.rotation e.origin)

theorem lastRow_inv (e : Electrode) :
    ∀ j, e.transform_matrix⁻¹ 2 j = (1 : Matrix (Fin 3) (Fin 3) ℝ) 2 j := by
  intro j
  have hdet : IsUnit e.transform_matrix.det := by
    rw [det_transform_matrix]; exact isUnit_one
  have h1 : e.transform_matrix * e.transform_matrix⁻¹ = 1 :=
    Matrix.mul_nonsing_inv _ hdet
  have h2 := congrArg (fun M => M 2 j) h1
  simp only [] at h2
  rw [Matrix.mul_apply, Fin.sum_univ_three, lastRow_transform e 0, lastRow_transform e 1,
    lastRow_transform e 2] at h2
  simpa [Matrix.one_apply] using h2

theorem mapPoint_roundtrip (e : Electrode) (p : Pt) :
    mapPoint e.transform_matrix (mapPoint e.transform_matrix⁻¹ p) = p := by
  have hdet : IsUnit e.transform_matrix.det := by
    rw [det_transform_matrix]; exact isUnit_one
  have hmul : e.transform_matrix * e.transform_matrix⁻¹ = 1 :=
    Matrix.mul_nonsing_inv _ hdet
  have hw2 : e.transform_matrix⁻¹.mulVec ![p.1, p.2, 1] 2 = 1 := by
    simp [Matrix.mulVec, Matrix.dotProduct, Fin.sum_univ_three,
      lastRow_inv e 0, lastRow_inv e 1, lastRow_inv e 2, Matrix.one_apply,
      Matrix.vecHead, Matrix.vecTail]
  have hvec : ![e.transform_matrix⁻¹.mulVec ![p.1, p.2, 1] 0,
      e.transform_matrix⁻¹.mulVec ![p.1, p.2, 1] 1, (1 : ℝ)] =
      e.transform_matrix⁻¹.mulVec ![p.1, p.2, 1] := by
    funext k
    fin_cases k
    · rfl
    · rfl
    · exact hw2.symm
  unfold mapPoint
  rw [hvec, Matrix.mulVec_mulVec, hmul, Matrix.one_mulVec]
  exact Prod.mk.eta

theorem insert_offset_points_no_prune_points (e : Electrode) (idx : ℕ) (pts : List Pt) :
    (e.insert_offset_points idx pts false).points =
      e.points.take idx ++ pts.map (mapPoint e.transform_matrix⁻¹) ++ e.points.drop idx := by
  rw [Electrode.insert_offset_points, Electrode.insert_points]
  rw [if_neg (by simp), if_neg (by simp), List.take_length, List.drop_zero]

/-- C9: inserting board-coordinate points through `insert_offset_points`
(pruning disabled) and reading them back through `offset_point` recovers the
original points exactly, for any electrode transform (any rotation and
translation, composed through any chain of parent frames). -/
theorem C9_insert_global_roundtrip (e : Electrode) (idx : ℕ) (pts : List Pt) (k : ℕ)
    (hidx : idx ≤ e.points.length) (hk : k < pts.length) :
    (e.insert_offset_points idx pts false).offset_point (idx + k) = pts.getD k (0, 0) := by
  rw [Electrode.offset_point]
  rw [show (e.insert_offset_points idx pts false).transform_matrix = e.transform_matrix from rfl]
  rw [insert_offset_points_no_prune_points]
  have hlen : (e.points.take idx).length = idx := by
    rw [List.length_take]
    omega
  have h1 : ((e.points.take idx ++ pts.map (mapPoint e.transform_matrix⁻¹)) ++
      e.points.drop idx).getD (idx + k) (0, 0) =
      (pts.map (mapPoint e.transform_matrix⁻¹)).getD k (0, 0) := by
    rw [List.append_assoc]
    rw [List.getD_append_right _ _ _ _ (by rw [hlen]; omega)]
    rw [hlen, Nat.add_sub_cancel_left]
    exact List.getD_append _ _ _ _ (by rw [List.length_map]; exact hk)
  rw [h1]
  rw [List.getD_eq_getElem _ _ (by rw [List.length_map]; exact hk), List.getElem_map]
  rw [mapPoint_roundtrip]
  exact (List.getD_eq_getElem pts (0, 0) hk).symm

/-- C9 witness: a point inserted in board coordinates into an electrode with
rotation π/3 under a parent frame rotated by π/6 reads back exactly. -/
theorem C9_insert_global_roundtrip_witness :
    (eRot.insert_offset_points 1 [(5, 7)] false).offset_point 1 = (5, 7) :=
  C9_insert_global_roundtrip eRot 1 [(5, 7)] 0 (by norm_num [eRot]) (by norm_num)

/-! ## C2: helper lemmas for the square-pair crenellation pipeline -/

theorem create_crenellated_edge_length (pstart pend : Pt) (n : ℕ) (theta margin : ℝ) :
    (create_crenellated_edge pstart pend n theta margin).length = n + 2 := by
  unfold create_crenellated_edge
  rw [List.length_map, List.length_zipWith, fingerXpts_length, fingerYpts_length, min_self]

theorem mapPoint_one (p : Pt) : mapPoint 1 p = p := by
  unfold mapPoint
  rw [Matrix.one_mulVec]
  exact Prod.mk.eta

theorem distPt_eval (p q : Pt) : distPt p q = Real.sqrt ((p.1 - q.1) ^ 2 + (p.2 - q.2) ^ 2) :=
  rfl

theorem distPt_ge_dx (p q : Pt) : |p.1 - q.1| ≤ distPt p q := by
  rw [distPt_eval,
    show |p.1 - q.1| = Real.sqrt ((p.1 - q.1) ^ 2) from (Real.sqrt_sq_eq_abs _).symm]
  exact Real.sqrt_le_sqrt (by nlinarith [sq_nonneg (p.2 - q.2)])

theorem distPt_ge_dy (p q : Pt) : |p.2 - q.2| ≤ distPt p q := by
  rw [distPt_eval,
    show |p.2 - q.2| = Real.sqrt ((p.2 - q.2) ^ 2) from (Real.sqrt_sq_eq_abs _).symm]
  exact Real.sqrt_le_sqrt (by nlinarith [sq_nonneg (p.1 - q.1)])

theorem not_close_of_dx (p q : Pt) (h : 1 / 10 ^ 3 ≤ |p.1 - q.1|) :
    ¬ distPt p q < 1 / 10 ^ 3 := by
  have := distPt_ge_dx p q
  intro hc
  linarith

theorem not_close_of_dy (p q : Pt) (h : 1 / 10 ^ 3 ≤ |p.2 - q.2|) :
    ¬ distPt p q < 1 / 10 ^ 3 := by
  have := distPt_ge_dy p q
  intro hc
  linarith

theorem distPt_comm (p q : Pt) : distPt p q = distPt q p := by
  unfold distPt norm2 psub
  ring_nf

theorem transform_sqA : sqA.transform_matrix = 1 := by
  rw [transform_matrix_plain sqA rfl rfl]
  ext i j
  fin_cases i <;> fin_cases j <;>
    simp [sqA, Matrix.one_apply, Matrix.vecHead, Matrix.vecTail]

theorem transform_sqA_inv : sqA.transform_matrix⁻¹ = 1 := by
  rw [transform_sqA, inv_one]

theorem map_mapPoint_sqA_inv (l : List Pt) : l.map (mapPoint sqA.transform_matrix⁻¹) = l := by
  rw [transform_sqA_inv]
  rw [List.map_congr_left (fun p _ => mapPoint_one p)]
  exact List.map_id' l

theorem transform_sqB : sqB.transform_matrix = !![1, 0, 0; 0, 1, -1; 0, 0, 1] := by
  rw [transform_matrix_plain sqB rfl rfl]
  ext i j
  fin_cases i <;> fin_cases j <;>
    simp [sqB, Matrix.vecHead, Matrix.vecTail]

theorem transform_sqB_inv : sqB.transform_matrix⁻¹ = !![1, 0, 0; 0, 1, 1; 0, 0, 1] := by
  rw [transform_sqB]
  refine Matrix.inv_eq_right_inv ?_
  ext i j
  fin_cases i <;> fin_cases j <;>
    simp [Matrix.mul_apply, Fin.sum_univ_three, Matrix.one_apply,
      Matrix.vecHead, Matrix.vecTail]

theorem mapPoint_sqB_inv (p : Pt) : mapPoint sqB.transform_matrix⁻¹ p = (p.1, p.2 + 1) := by
  rw [transform_sqB_inv, mapPoint_affine]
  norm_num

theorem midPt_eq_raw (n : ℕ) (i : ℕ) :
    ((1/10 + (1 - 1/10 * 2)/(n : ℝ)/2 + (1 - 1/10 * 2)/(n : ℝ) * i,
      (if i % 2 = 0 then (1 : ℝ) else -1) * ((1 - 1/10 * 2)/(n : ℝ)/1/2)) : Pt) = midPt n i := by
  unfold midPt
  rw [Prod.mk.injEq]
  constructor
  · ring
  · split_ifs <;> ring

theorem cren_eval (n : ℕ) :
    create_crenellated_edge (0, 0) (1, 0) n (Real.pi / 2) (1/10) =
      [((1 : ℝ)/10, (0 : ℝ))] ++ (List.range n).map (midPt n) ++ [((9 : ℝ)/10, (0 : ℝ))] := by
  have h1 : norm2 (psub ((0 : ℝ), (0 : ℝ)) (1, 0)) = 1 := by
    unfold norm2 psub
    norm_num [Real.sqrt_eq_one]
  have h2 : arctan2 ((0 : ℝ) - 0) ((1 : ℝ) - 0) = 0 := by
    unfold arctan2
    rw [if_pos (by norm_num : (0 : ℝ) < 1 - 0)]
    norm_num [Real.arctan_zero]
  have h3 : rotTrans 0 ((0 : ℝ), (0 : ℝ)) = id := by
    funext p
    unfold rotTrans
    simp [Real.cos_zero, Real.sin_zero]
  have htan : Real.tan (Real.pi / 2 / 2) = 1 := by
    rw [show Real.pi / 2 / 2 = Real.pi / 4 by ring, Real.tan_pi_div_four]
  unfold create_crenellated_edge fingerXpts fingerYpts alternating
  rw [h1, h2, htan, h3, List.map_id]
  rw [List.map_append, List.map_append, List.map_map]
  rw [List.zipWith_append _ _ _ _ _ (by simp)]
  rw [List.zipWith_append _ _ _ _ _ (by simp)]
  rw [List.zipWith_map, List.zipWith_same]
  simp only [List.zipWith_cons_cons, List.zipWith_nil_left, Function.comp]
  simp only [midPt_eq_raw]
  norm_num

theorem insert_points_sandwich (e : Electrode) (idx : ℕ) (x y : Pt) (mid : List Pt)
    (hx : distPt (e.points.getD (previdx e.points.length idx) (0, 0)) x < 1 / 10 ^ 3)
    (hy : distPt (e.points.getD (nextidx e.points.length idx) (0, 0)) y < 1 / 10 ^ 3) :
    e.insert_points idx ([x] ++ mid ++ [y]) true =
      { e with points := e.points.take idx ++ mid ++ e.points.drop idx } := by
  have hcf : closeFirst e idx ([x] ++ mid ++ [y]) := by
    unfold closeFirst
    simpa using hx
  have hcl : closeLast e idx ([x] ++ mid ++ [y]) := by
    unfold closeLast
    rw [show ([x] ++ mid ++ [y]).getLastD (0, 0) = y from by rw [List.getLastD_concat]]
    exact hy
  rw [Electrode.insert_points]
  rw [if_pos (show (true : Bool) = true ∧ closeLast e idx ([x] ++ mid ++ [y]) from ⟨rfl, hcl⟩)]
  rw [if_pos (show (true : Bool) = true ∧ closeFirst e idx ([x] ++ mid ++ [y]) from ⟨rfl, hcf⟩)]
  rw [← List.dropLast_eq_take, List.dropLast_concat]
  simp

theorem insertA_eval (n : ℕ) :
    sqA.insert_offset_points 4
      ([((1 : ℝ), (0 : ℝ))] ++
        ([((9 : ℝ)/10, (0 : ℝ))] ++ ((List.range n).map (midPt n)).reverse ++
          [((1 : ℝ)/10, (0 : ℝ))]) ++
        [((0 : ℝ), (0 : ℝ))]) true =
      { sqA with points := sqA.points ++
          ([((9 : ℝ)/10, (0 : ℝ))] ++ ((List.range n).map (midPt n)).reverse ++
            [((1 : ℝ)/10, (0 : ℝ))]) } := by
  rw [Electrode.insert_offset_points, map_mapPoint_sqA_inv]
  rw [insert_points_sandwich sqA 4 (1, 0) (0, 0) _ ?_ ?_]
  · have hpts : sqA.points.take 4 = sqA.points := rfl
    have hdrop : sqA.points.drop 4 = ([] : List Pt) := rfl
    rw [hpts, hdrop, List.append_nil]
  · rw [show previdx sqA.points.length 4 = 3 from rfl,
      show sqA.points.getD 3 (0, 0) = (1, 0) from rfl, distPt_eval]
    norm_num
  · rw [show nextidx sqA.points.length 4 = 0 from rfl,
      show sqA.points.getD 0 (0, 0) = (0, 0) from rfl, distPt_eval]
    norm_num

theorem insertB_eval (n : ℕ) :
    sqB.insert_offset_points 2
      ([((0 : ℝ), (0 : ℝ))] ++
        ([((1 : ℝ)/10, (0 : ℝ))] ++ (List.range n).map (midPt n) ++ [((9 : ℝ)/10, (0 : ℝ))]) ++
        [((1 : ℝ), (0 : ℝ))]) true =
      { sqB with points := [((0 : ℝ), (0 : ℝ)), ((0 : ℝ), (1 : ℝ))] ++
          ([((1 : ℝ)/10, (1 : ℝ))] ++
            (List.range n).map (fun i : ℕ => ((midPt n i).1, (midPt n i).2 + 1)) ++
            [((9 : ℝ)/10, (1 : ℝ))]) ++
          [((1 : ℝ), (1 : ℝ)), ((1 : ℝ), (0 : ℝ))] } := by
  have hmap : (([((0 : ℝ), (0 : ℝ))] ++
      ([((1 : ℝ)/10, (0 : ℝ))] ++ (List.range n).map (midPt n) ++ [((9 : ℝ)/10, (0 : ℝ))]) ++
      [((1 : ℝ), (0 : ℝ))]).map (fun p : Pt => (p.1, p.2 + 1))) =
      [((0 : ℝ), (1 : ℝ))] ++
        ([((1 : ℝ)/10, (1 : ℝ))] ++
          (List.range n).map (fun i : ℕ => ((midPt n i).1, (midPt n i).2 + 1)) ++
          [((9 : ℝ)/10, (1 : ℝ))]) ++
        [((1 : ℝ), (1 : ℝ))] := by
    rw [List.map_append, List.map_append, List.map_append, List.map_append, List.map_map]
    norm_num [Function.comp]
  rw [Electrode.insert_offset_points]
  rw [List.map_congr_left (fun p (_ : p ∈ _) => mapPoint_sqB_inv p), hmap]
  rw [insert_points_sandwich sqB 2 (0, 1) (1, 1) _ ?_ ?_]
  · rfl
  · rw [show previdx sqB.points.length 2 = 1 from rfl,
      show sqB.points.getD 1 (0, 0) = (0, 1) from rfl, distPt_eval]
    norm_num
  · rw [show nextidx sqB.points.length 2 = 2 from rfl,
      show sqB.points.getD 2 (0, 0) = (1, 1) from rfl, distPt_eval]
    norm_num

theorem crenellate_sq_result (n : ℕ) :
    crenellate_electrodes sqA sqB n (Real.pi / 2) (1/10) 3 1 =
      .ok
        ({ sqA with points := sqA.points ++
            ([((9 : ℝ)/10, (0 : ℝ))] ++ ((List.range n).map (midPt n)).reverse ++
              [((1 : ℝ)/10, (0 : ℝ))]) },
         { sqB with points := [((0 : ℝ), (0 : ℝ)), ((0 : ℝ), (1 : ℝ))] ++
            ([((1 : ℝ)/10, (1 : ℝ))] ++
              (List.range n).map (fun i : ℕ => ((midPt n i).1, (midPt n i).2 + 1)) ++
              [((9 : ℝ)/10, (1 : ℝ))]) ++
            [((1 : ℝ), (1 : ℝ)), ((1 : ℝ), (0 : ℝ))] }) := by
  have hedgeA : sqA.offset_edge 3 = ((1, 0), (0, 0)) := by
    rw [Electrode.offset_edge, if_pos (by norm_num [sqA]),
      offset_point_plain sqA rfl rfl, offset_point_plain sqA rfl rfl]
    norm_num [sqA]
  have hedgeB : sqB.offset_edge 1 = ((0, 0), (1, 0)) := by
    rw [Electrode.offset_edge, if_neg (by norm_num [sqB]),
      offset_point_plain sqB rfl rfl, offset_point_plain sqB rfl rfl]
    norm_num [sqB]
  have hf1 : frobNorm (((1 : ℝ), (0 : ℝ)), ((0 : ℝ), (0 : ℝ))) = 1 := by
    unfold frobNorm
    exact sqrt_eval (by norm_num) (by norm_num)
  have hf2 : frobNorm (((0 : ℝ), (0 : ℝ)), ((1 : ℝ), (0 : ℝ))) = 1 := by
    unfold frobNorm
    exact sqrt_eval (by norm_num) (by norm_num)
  have hflipA : are_edges_flipped (((1 : ℝ), (0 : ℝ)), ((0 : ℝ), (0 : ℝ)))
      (((0 : ℝ), (0 : ℝ)), ((1 : ℝ), (0 : ℝ))) := by
    unfold are_edges_flipped dot2 psub
    norm_num
  have hflipB : ¬ are_edges_flipped (((0 : ℝ), (0 : ℝ)), ((1 : ℝ), (0 : ℝ)))
      (((0 : ℝ), (0 : ℝ)), ((1 : ℝ), (0 : ℝ))) := by
    unfold are_edges_flipped dot2 psub
    norm_num
  have hrev : (([((0 : ℝ), (0 : ℝ))] ++
      ([((1 : ℝ)/10, (0 : ℝ))] ++ (List.range n).map (midPt n) ++ [((9 : ℝ)/10, (0 : ℝ))]) ++
      [((1 : ℝ), (0 : ℝ))]) : List Pt).reverse =
      [((1 : ℝ), (0 : ℝ))] ++
        ([((9 : ℝ)/10, (0 : ℝ))] ++ ((List.range n).map (midPt n)).reverse ++
          [((1 : ℝ)/10, (0 : ℝ))]) ++
        [((0 : ℝ), (0 : ℝ))] := by
    simp [List.reverse_append]
  rw [crenellate_electrodes]
  rw [if_neg (show ¬ (((3 : ℤ) = -1 ∨ (1 : ℤ) = -1) ∧ (1 : ℤ) ≠ 3) by norm_num)]
  rw [if_neg (show ¬ (3 : ℤ) = -1 by norm_num)]
  simp only [show ((3 : ℤ).toNat) = 3 from rfl, show ((1 : ℤ).toNat) = 1 from rfl]
  rw [hedgeA, hedgeB]
  simp only [hf1, hf2, lt_self_iff_false, if_false]
  rw [cren_eval n]
  rw [if_pos hflipA, if_neg hflipB]
  rw [hrev, insertA_eval n, insertB_eval n]

theorem farPt_comm {p q : Pt} (h : farPt p q) : farPt q p := by
  unfold farPt at h ⊢
  rw [distPt_comm]
  exact h

theorem farPt_of_dx (p q : Pt) (h : 1 / 10 ^ 3 ≤ |p.1 - q.1|) : farPt p q :=
  not_close_of_dx p q h

theorem farPt_of_dy (p q : Pt) (h : 1 / 10 ^ 3 ≤ |p.2 - q.2|) : farPt p q :=
  not_close_of_dy p q h

theorem inv_n_lower (n : ℕ) (h1 : 1 ≤ n) (h100 : n ≤ 100) :
    (1 : ℝ) / 10 ^ 3 ≤ 2/5/(n : ℝ) := by
  have hn0 : (0 : ℝ) < (n : ℝ) := by
    exact_mod_cast Nat.pos_of_ne_zero (by omega)
  have hle : (n : ℝ) ≤ 100 := by exact_mod_cast h100
  have := div_le_div_of_nonneg_left (show (0 : ℝ) ≤ 2/5 by norm_num) hn0 hle
  linarith

theorem farPt_mid_succ (n : ℕ) (h1 : 1 ≤ n) (h100 : n ≤ 100) (i : ℕ) :
    farPt (midPt n i) (midPt n (i + 1)) := by
  refine farPt_of_dx _ _ (le_abs.mpr (Or.inr ?_))
  have hx : -((midPt n i).1 - (midPt n (i + 1)).1) = 4/5/(n : ℝ) := by
    unfold midPt
    push_cast
    ring
  rw [hx]
  have := inv_n_lower n h1 h100
  have h2 : 2/5/(n : ℝ) ≤ 4/5/(n : ℝ) := by
    have hn0 : (0 : ℝ) < (n : ℝ) := by
      exact_mod_cast Nat.pos_of_ne_zero (by omega)
    have : (0 : ℝ) ≤ 2/5/(n : ℝ) := by positivity
    rw [div_le_div_iff hn0 hn0]
    nlinarith
  linarith

theorem chain_mids (n : ℕ) (h1 : 1 ≤ n) (h100 : n ≤ 100) :
    List.Chain' farPt ((List.range n).map (midPt n)) := by
  rw [List.chain'_iff_get]
  intro i hlen
  simp only [List.length_map, List.length_range] at hlen
  rw [List.get_eq_getElem, List.get_eq_getElem, List.getElem_map, List.getElem_map,
    List.getElem_range, List.getElem_range]
  exact farPt_mid_succ n h1 h100 i

theorem getD_zero_eq_headD (pts : List Pt) : pts.getD 0 (0, 0) = pts.headD (0, 0) := by
  cases pts <;> rfl

theorem getD_last_eq_getLastD (pts : List Pt) (hne : pts ≠ []) :
    pts.getD (pts.length - 1) (0, 0) = pts.getLastD (0, 0) := by
  rw [List.getLastD_eq_getLast?, List.getLast?_eq_getLast _ hne, List.getLast_eq_get]
  rw [List.getD_eq_getElem _ _ (by
    have := List.length_pos.mpr hne
    omega)]
  rfl

theorem ringAdjacentFree_of_chain (pts : List Pt) (hne : pts ≠ [])
    (hch : List.Chain' farPt pts)
    (hwrap : farPt (pts.getLastD (0, 0)) (pts.headD (0, 0))) :
    ringAdjacentFree pts := by
  intro i hi
  by_cases hlast : i + 1 = pts.length
  · rw [show (i + 1) % pts.length = 0 by rw [hlast, Nat.mod_self]]
    have hieq : i = pts.length - 1 := by omega
    rw [hieq, getD_last_eq_getLastD pts hne, getD_zero_eq_headD]
    exact hwrap
  · rw [Nat.mod_eq_of_lt (by omega : i + 1 < pts.length)]
    have hget := List.chain'_iff_get.mp hch i (by omega)
    rw [List.getD_eq_getElem _ _ hi, List.getD_eq_getElem _ _ (by omega : i + 1 < pts.length)]
    rw [List.get_eq_getElem, List.get_eq_getElem] at hget
    exact hget

theorem farPt_shift_y {p q : Pt} (h : farPt p q) : farPt (p.1, p.2 + 1) (q.1, q.2 + 1) := by
  have heq : distPt (p.1, p.2 + 1) (q.1, q.2 + 1) = distPt p q := by
    rw [distPt_eval, distPt_eval]
    ring_nf
  unfold farPt at h ⊢
  rw [heq]
  exact h

theorem mids_head (n : ℕ) (h1 : 1 ≤ n) (f : ℕ → Pt) :
    ((List.range n).map f).head? = some (f 0) := by
  obtain ⟨m, rfl⟩ : ∃ m, n = m + 1 := ⟨n - 1, by omega⟩
  rw [List.range_succ_eq_map]
  rfl

theorem mids_getLast (n : ℕ) (h1 : 1 ≤ n) (f : ℕ → Pt) :
    ((List.range n).map f).getLast? = some (f (n - 1)) := by
  obtain ⟨m, rfl⟩ : ∃ m, n = m + 1 := ⟨n - 1, by omega⟩
  rw [show List.range (m + 1) = List.range m ++ [m] from List.range_succ m, List.map_append]
  rw [List.getLast?_append_of_ne_nil _ (by simp)]
  rfl

theorem midPt_x_last (n : ℕ) (h1 : 1 ≤ n) :
    (midPt n (n - 1)).1 = 9/10 - 2/5/(n : ℝ) := by
  have hn0 : ((n : ℝ)) ≠ 0 := by
    have : (0 : ℝ) < (n : ℝ) := by exact_mod_cast Nat.pos_of_ne_zero (by omega)
    linarith
  unfold midPt
  rw [Nat.cast_sub h1]
  push_cast
  field_simp
  ring

theorem farPt_q2_midlast (n : ℕ) (h1 : 1 ≤ n) (h100 : n ≤ 100) :
    farPt ((9/10 : ℝ), (0 : ℝ)) (midPt n (n - 1)) := by
  refine farPt_of_dx _ _ (le_abs.mpr (Or.inl ?_))
  rw [show (((9/10 : ℝ), (0 : ℝ)) : Pt).1 = 9/10 from rfl, midPt_x_last n h1]
  have := inv_n_lower n h1 h100
  linarith

theorem farPt_mid0_q1 (n : ℕ) (h1 : 1 ≤ n) (h100 : n ≤ 100) :
    farPt (midPt n 0) ((1/10 : ℝ), (0 : ℝ)) := by
  refine farPt_of_dx _ _ (le_abs.mpr (Or.inl ?_))
  have hx : (midPt n 0).1 - (((1/10 : ℝ), (0 : ℝ)) : Pt).1 = 2/5/(n : ℝ) := by
    unfold midPt
    push_cast
    ring
  rw [hx]
  exact inv_n_lower n h1 h100

theorem chain_midsB (n : ℕ) (h1 : 1 ≤ n) (h100 : n ≤ 100) :
    List.Chain' farPt ((List.range n).map (fun i : ℕ => ((midPt n i).1, (midPt n i).2 + 1))) := by
  rw [List.chain'_iff_get]
  intro i hlen
  simp only [List.length_map, List.length_range] at hlen
  rw [List.get_eq_getElem, List.get_eq_getElem, List.getElem_map, List.getElem_map,
    List.getElem_range, List.getElem_range]
  exact farPt_shift_y (farPt_mid_succ n h1 h100 i)

theorem ringA_free (n : ℕ) (h1 : 1 ≤ n) (h100 : n ≤ 100) :
    ringAdjacentFree (sqA.points ++
      ([((9 : ℝ)/10, (0 : ℝ))] ++ ((List.range n).map (midPt n)).reverse ++
        [((1 : ℝ)/10, (0 : ℝ))])) := by
  have hmne : ((List.range n).map (midPt n)).reverse ≠ [] := by
    intro hc
    have := congrArg List.length hc
    simp at this
    omega
  refine ringAdjacentFree_of_chain _ (by simp [sqA]) ?_ ?_
  · rw [List.chain'_append]
    refine ⟨?_, ?_, ?_⟩
    · rw [show sqA.points =
        [((0 : ℝ), (0 : ℝ)), ((0 : ℝ), (1 : ℝ)), ((1 : ℝ), (1 : ℝ)), ((1 : ℝ), (0 : ℝ))] from rfl]
      refine List.chain'_cons.mpr ⟨farPt_of_dy _ _ (le_abs.mpr (Or.inr (by norm_num))), ?_⟩
      refine List.chain'_cons.mpr ⟨farPt_of_dx _ _ (le_abs.mpr (Or.inr (by norm_num))), ?_⟩
      refine List.chain'_cons.mpr ⟨farPt_of_dy _ _ (le_abs.mpr (Or.inl (by norm_num))), ?_⟩
      exact List.chain'_singleton _
    · rw [List.chain'_append]
      refine ⟨?_, List.chain'_singleton _, ?_⟩
      · rw [List.chain'_append]
        refine ⟨List.chain'_singleton _, ?_, ?_⟩
        · rw [List.chain'_reverse]
          exact (chain_mids n h1 h100).imp (fun a b h => farPt_comm h)
        · intro x hx y hy
          rw [show ([((9 : ℝ)/10, (0 : ℝ))] : List Pt).getLast? = some ((9 : ℝ)/10, (0 : ℝ))
            from rfl] at hx
          rw [List.head?_reverse, mids_getLast n h1] at hy
          simp only [Option.mem_def, Option.some.injEq] at hx hy
          subst hx
          subst hy
          exact farPt_q2_midlast n h1 h100
      · intro x hx y hy
        rw [List.getLast?_append_of_ne_nil _ hmne, List.getLast?_reverse,
          mids_head n h1] at hx
        simp only [Option.mem_def, Option.some.injEq, List.head?_cons] at hx hy
        subst hx
        subst hy
        exact farPt_mid0_q1 n h1 h100
    · intro x hx y hy
      rw [show sqA.points.getLast? = some ((1 : ℝ), (0 : ℝ)) from rfl] at hx
      rw [show ([((9 : ℝ)/10, (0 : ℝ))] ++ ((List.range n).map (midPt n)).reverse ++
          [((1 : ℝ)/10, (0 : ℝ))]).head? = some ((9 : ℝ)/10, (0 : ℝ)) from rfl] at hy
      simp only [Option.mem_def, Option.some.injEq] at hx hy
      subst hx
      subst hy
      exact farPt_of_dx _ _ (le_abs.mpr (Or.inl (by norm_num)))
  · rw [show sqA.points ++ ([((9 : ℝ)/10, (0 : ℝ))] ++ ((List.range n).map (midPt n)).reverse ++
        [((1 : ℝ)/10, (0 : ℝ))]) =
      (sqA.points ++ ([((9 : ℝ)/10, (0 : ℝ))] ++ ((List.range n).map (midPt n)).reverse)) ++
        [((1 : ℝ)/10, (0 : ℝ))] from by rw [← List.append_assoc, ← List.append_assoc]]
    rw [List.getLastD_concat]
    rw [show ((sqA.points ++ ([((9 : ℝ)/10, (0 : ℝ))] ++ ((List.range n).map (midPt n)).reverse)) ++
        [((1 : ℝ)/10, (0 : ℝ))]).headD (0, 0) = ((0 : ℝ), (0 : ℝ)) from rfl]
    exact farPt_of_dx _ _ (le_abs.mpr (Or.inl (by norm_num)))

theorem farPt_p1_midB0 (n : ℕ) (h1 : 1 ≤ n) (h100 : n ≤ 100) :
    farPt ((1/10 : ℝ), (1 : ℝ)) ((midPt n 0).1, (midPt n 0).2 + 1) := by
  refine farPt_of_dx _ _ (le_abs.mpr (Or.inr ?_))
  have hx : -((((1/10 : ℝ), (1 : ℝ)) : Pt).1 - (((midPt n 0).1, (midPt n 0).2 + 1) : Pt).1) =
      2/5/(n : ℝ) := by
    unfold midPt
    push_cast
    ring
  rw [hx]
  exact inv_n_lower n h1 h100

theorem farPt_midBlast_p2 (n : ℕ) (h1 : 1 ≤ n) (h100 : n ≤ 100) :
    farPt ((midPt n (n - 1)).1, (midPt n (n - 1)).2 + 1) ((9/10 : ℝ), (1 : ℝ)) := by
  refine farPt_of_dx _ _ (le_abs.mpr (Or.inr ?_))
  rw [show ((((midPt n (n - 1)).1, (midPt n (n - 1)).2 + 1) : Pt)).1 = (midPt n (n - 1)).1
    from rfl, midPt_x_last n h1]
  have := inv_n_lower n h1 h100
  norm_num
  linarith

theorem ringB_free (n : ℕ) (h1 : 1 ≤ n) (h100 : n ≤ 100) :
    ringAdjacentFree ([((0 : ℝ), (0 : ℝ)), ((0 : ℝ), (1 : ℝ))] ++
      ([((1 : ℝ)/10, (1 : ℝ))] ++
        (List.range n).map (fun i : ℕ => ((midPt n i).1, (midPt n i).2 + 1)) ++
        [((9 : ℝ)/10, (1 : ℝ))]) ++
      [((1 : ℝ), (1 : ℝ)), ((1 : ℝ), (0 : ℝ))]) := by
  have hmne : ((List.range n).map (fun i : ℕ => ((midPt n i).1, (midPt n i).2 + 1))) ≠ [] := by
    intro hc
    have := congrArg List.length hc
    simp at this
    omega
  refine ringAdjacentFree_of_chain _ (by simp) ?_ ?_
  · rw [List.chain'_append]
    refine ⟨?_, ?_, ?_⟩
    · rw [List.chain'_append]
      refine ⟨?_, ?_, ?_⟩
      · refine List.chain'_cons.mpr ⟨farPt_of_dy _ _ (le_abs.mpr (Or.inr (by norm_num))), ?_⟩
        exact List.chain'_singleton _
      · rw [List.chain'_append]
        refine ⟨?_, List.chain'_singleton _, ?_⟩
        · rw [List.chain'_append]
          refine ⟨List.chain'_singleton _, chain_midsB n h1 h100, ?_⟩
          · intro x hx y hy
            rw [show ([((1 : ℝ)/10, (1 : ℝ))] : List Pt).getLast? = some ((1 : ℝ)/10, (1 : ℝ))
              from rfl] at hx
            rw [mids_head n h1] at hy
            simp only [Option.mem_def, Option.some.injEq] at hx hy
            subst hx
            subst hy
            exact farPt_p1_midB0 n h1 h100
        · intro x hx y hy
          rw [List.getLast?_append_of_ne_nil _ hmne, mids_getLast n h1] at hx
          simp only [Option.mem_def, Option.some.injEq, List.head?_cons] at hx hy
          subst hx
          subst hy
          exact farPt_midBlast_p2 n h1 h100
      · intro x hx y hy
        rw [show ([((0 : ℝ), (0 : ℝ)), ((0 : ℝ), (1 : ℝ))] : List Pt).getLast? =
          some ((0 : ℝ), (1 : ℝ)) from rfl] at hx
        rw [show ([((1 : ℝ)/10, (1 : ℝ))] ++
            (List.range n).map (fun i : ℕ => ((midPt n i).1, (midPt n i).2 + 1)) ++
            [((9 : ℝ)/10, (1 : ℝ))]).head? = some ((1 : ℝ)/10, (1 : ℝ)) from rfl] at hy
        simp only [Option.mem_def, Option.some.injEq] at hx hy
        subst hx
        subst hy
        exact farPt_of_dx _ _ (le_abs.mpr (Or.inr (by norm_num)))
    · refine List.chain'_cons.mpr ⟨farPt_of_dy _ _ (le_abs.mpr (Or.inl (by norm_num))), ?_⟩
      exact List.chain'_singleton _
    · intro x hx y hy
      rw [List.getLast?_append_of_ne_nil _ (by simp),
        List.getLast?_append_of_ne_nil _ (by simp)] at hx
      rw [show ([((9 : ℝ)/10, (1 : ℝ))] : List Pt).getLast? = some ((9 : ℝ)/10, (1 : ℝ))
        from rfl] at hx
      simp only [Option.mem_def, Option.some.injEq, List.head?_cons] at hx hy
      subst hx
      subst hy
      exact farPt_of_dx _ _ (le_abs.mpr (Or.inr (by norm_num)))
  · rw [show ([((0 : ℝ), (0 : ℝ)), ((0 : ℝ), (1 : ℝ))] ++
        ([((1 : ℝ)/10, (1 : ℝ))] ++
          (List.range n).map (fun i : ℕ => ((midPt n i).1, (midPt n i).2 + 1)) ++
          [((9 : ℝ)/10, (1 : ℝ))]) ++
        [((1 : ℝ), (1 : ℝ)), ((1 : ℝ), (0 : ℝ))]).headD (0, 0) = ((0 : ℝ), (0 : ℝ)) from rfl]
    rw [List.getLastD_eq_getLast?, List.getLast?_append_of_ne_nil _ (by simp),
      show ([((1 : ℝ), (1 : ℝ)), ((1 : ℝ), (0 : ℝ))] : List Pt).getLast? =
        some ((1 : ℝ), (0 : ℝ)) from rfl]
    exact farPt_of_dx _ _ (le_abs.mpr (Or.inl (by norm_num)))

/-- C2 counterexample: on two abutting unit squares with explicitly resolved
shared edge (A edge 3, B edge 1), `crenellate` with n = 2, θ = π/2,
margin = 0.1 leaves both polygons with 8 vertices: 4 + 4 = 8 new interior
points were inserted in total (n + 2 = 4 into each polygon), not the claimed
n + 1 = 3. -/
theorem C2_insertion_count_cex :
    (crenellate_electrodes sqA sqB 2 (Real.pi / 2) (1/10) 3 1).toOption.map
        (fun p => (p.1.points.length, p.2.points.length)) = some (8, 8) ∧
      8 + 8 ≠ 4 + 4 + (2 + 1) := by
  constructor
  · rw [crenellate_sq_result 2]
    simp [sqA, sqB, Except.toOption]
  · norm_num

/-- C2 amended: on the canonical valid shared-edge pair (two abutting unit
squares, explicit edge pair (3, 1), θ = π/2, margin = 0.1), `crenellate`
succeeds and inserts exactly n + 2 new boundary points into each polygon
(2n + 4 in total, split evenly) — the start and end points of the replacement
polyline are pruned as duplicates on both sides — and, for 1 ≤ n ≤ 100, both
resulting vertex rings have no duplicate adjacent vertices within the 1e-3
tolerance (including the closing edges). -/
theorem C2_insertion_count_amended (n : ℕ) (h1 : 1 ≤ n) (h100 : n ≤ 100) :
    ∃ a' b', crenellate_electrodes sqA sqB n (Real.pi / 2) (1/10) 3 1 = .ok (a', b') ∧
      a'.points.length = sqA.points.length + (n + 2) ∧
      b'.points.length = sqB.points.length + (n + 2) ∧
      ringAdjacentFree a'.points ∧ ringAdjacentFree b'.points := by
  refine ⟨_, _, crenellate_sq_result n, ?_, ?_, ?_, ?_⟩
  · simp [sqA]
    omega
  · simp [sqB]
    omega
  · exact ringA_free n h1 h100
  · exact ringB_free n h1 h100

/-- C2 amended witness: the amended statement at n = 2. -/
theorem C2_insertion_count_amended_witness :
    ∃ a' b', crenellate_electrodes sqA sqB 2 (Real.pi / 2) (1/10) 3 1 = .ok (a', b') ∧
      a'.points.length = sqA.points.length + (2 + 2) ∧
      b'.points.length = sqB.points.length + (2 + 2) ∧
      ringAdjacentFree a'.points ∧ ringAdjacentFree b'.points :=
  C2_insertion_count_amended 2 (by norm_num) (by norm_num)
